import Mathlib

/-!
Verification of the Maia DAO smart-order-router core against its
natural-language specification.  The definitions below are a shallow
embedding, translated from the TypeScript sources:

* `src/routers/alpha-router/functions/compute-all-routes.ts`
* `src/routers/alpha-router/entities/route-with-valid-quote.ts`
* `src/routers/alpha-router/quoters/mixed-quoter.ts` and the stable quoter
* `src/providers/token-provider.ts` and the caching token provider
* the candidate-pool selector (`get-candidate-pools`)
* `src/routers/alpha-router/gas-models/v3/*-gas-costs.ts` and the mixed
  heuristic gas model
* `src/providers/stable/subgraph-provider*`

Machine integers (BigNumber) are modelled as `Int`; exact currency
amounts (fractions of sdk-core) as `Rat`; JavaScript objects keyed by
strings as association lists with overwrite-on-set semantics.
-/

namespace SOR

/-- ASCII lowercase table used to model the JavaScript
`String.prototype.toLowerCase` (only ASCII letters occur in the data the
router lowercases: hex addresses and token symbols). -/
def lowerTable : List Char :=
  ['a', 'b', 'c', 'd', 'e', 'f', 'g', 'h', 'i', 'j', 'k', 'l', 'm',
   'n', 'o', 'p', 'q', 'r', 's', 't', 'u', 'v', 'w', 'x', 'y', 'z']

/-- Lowercase one character, ASCII-style (JS `toLowerCase`). -/
def lcChar (c : Char) : Char :=
  if c.isUpper then lowerTable.getD (c.toNat - 65) c else c

/-- Model of `s.toLowerCase()`. -/
def lcStr (s : String) : String := ⟨s.data.map lcChar⟩

/-- True when the string has an ASCII uppercase character. -/
def hasUpper (s : String) : Bool := s.data.any Char.isUpper

/-- Token model (`NativeToken` from maia-core-sdk): a chain id plus an
address, with the metadata carried by the provider layer.  sdk equality
(`equals`) compares chain id and address only. -/
structure NativeToken where
  chainId : Nat
  address : String
  decimals : Nat := 18
  symbol : String := ""
  deriving DecidableEq, Repr

/-- sdk `Token.equals`: same chain and same address. -/
def NativeToken.equalsTok (a b : NativeToken) : Bool :=
  a.chainId == b.chainId && a.address == b.address

/-- Pool variants (the TS runtime classes `Pool`, `Pair`,
`ComposableStablePool`, `ComposableStablePoolWrapper`); `constructor`
comparison in the source corresponds to comparing these tags. -/
inductive PoolVariant where
  | v3
  | v2
  | stable
  | stableWrapper
  deriving DecidableEq, Repr

/-- A pool (`TPool` of hermes-swap-router-sdk).  Every variant exposes the
`token0` / `token1` pair the route enumerator reads; a composable stable
pool additionally carries its 32-byte pool id (`pool.id`); stable pools
are projected onto token pairs before enumeration, which is why the same
pool id may appear with several token pairs. -/
inductive TPool where
  | v3 (token0 token1 : NativeToken) (fee : Nat)
  | v2 (token0 token1 : NativeToken)
  | stable (token0 token1 : NativeToken) (poolId : String)
  | stableWrapper (token0 token1 : NativeToken)
  deriving DecidableEq, Repr

def TPool.token0 : TPool → NativeToken
  | .v3 t0 _ _ => t0
  | .v2 t0 _ => t0
  | .stable t0 _ _ => t0
  | .stableWrapper t0 _ => t0

def TPool.token1 : TPool → NativeToken
  | .v3 _ t1 _ => t1
  | .v2 _ t1 => t1
  | .stable _ t1 _ => t1
  | .stableWrapper _ t1 => t1

def TPool.variant : TPool → PoolVariant
  | .v3 _ _ _ => .v3
  | .v2 _ _ => .v2
  | .stable _ _ _ => .stable
  | .stableWrapper _ _ => .stableWrapper

/-- sdk `pool.involvesToken(t)`: the token equals `token0` or `token1`. -/
def TPool.involvesToken (p : TPool) (t : NativeToken) : Bool :=
  p.token0.equalsTok t || p.token1.equalsTok t

/-- The token on the other side of the pool, exactly as the enumerator
computes it: `curPool.token0.equals(currentTokenIn) ? curPool.token1 :
curPool.token0`. -/
def otherTok (p : TPool) (t : NativeToken) : NativeToken :=
  if p.token0.equalsTok t then p.token1 else p.token0

/-- `poolEquals` from compute-all-routes.ts: true only for two composable
stable pools with the same pool id. -/
def poolEquals (poolA poolB : TPool) : Bool :=
  match poolA, poolB with
  | .stable _ _ idA, .stable _ _ idB => idA == idB
  | _, _ => false

/-- Protocol tag of a route class (`V2Route`, `V3Route`, `StableRoute`,
`StableWrapperRoute`, `MixedRoute`). -/
inductive RouteProtocol where
  | v2
  | v3
  | stable
  | stableWrapper
  | mixed
  deriving DecidableEq, Repr

/-- A route as built by `buildRoute(route, tokenIn, tokenOut)`. -/
structure Route where
  proto : RouteProtocol
  pools : List TPool
  input : NativeToken
  output : NativeToken
  deriving DecidableEq, Repr

/-- The token chain a pool path induces, starting from a given token: the
next chain token of each hop is `otherTok`, as in the enumerator. -/
def routeChain (t : NativeToken) : List TPool → List NativeToken
  | [] => [t]
  | p :: ps => t :: routeChain (otherTok p t) ps

/-- The final chain token of a pool path. -/
def chainEnd (t : NativeToken) : List TPool → NativeToken
  | [] => t
  | p :: ps => chainEnd (otherTok p t) ps

/-- Each pool of the path involves its entry chain token. -/
def chainLinked (t : NativeToken) : List TPool → Bool
  | [] => true
  | p :: ps => p.involvesToken t && chainLinked (otherTok p t) ps

/-- The recursive body of `computeAllRoutes` (`computeRoutes` in
compute-all-routes.ts).  The source mutates `currentRoute`, `poolsUsed`
and `tokensVisited` and restores them after each recursive call; here
the updated state is passed to the recursive call instead.  `fuel`
bounds the recursion depth; the top-level entry point passes enough fuel
for the `maxHops` guard to be the binding bound. -/
def computeRoutesAux (tokenIn tokenOut : NativeToken) (pools : List TPool)
    (maxHops : Nat) : Nat → List TPool → List Bool → List String →
    Option NativeToken → List (List TPool)
  | 0, _, _, _, _ => []
  | fuel + 1, currentRoute, poolsUsed, tokensVisited, previousTokenOut =>
    if currentRoute.length > maxHops then
      []
    else if (match currentRoute.getLast? with
             | some lastPool => lastPool.involvesToken tokenOut
             | none => false) then
      [currentRoute]
    else
      (List.range pools.length).flatMap fun i =>
        match pools[i]? with
        | none => []
        | some curPool =>
          if poolsUsed.getD i false then
            []
          else if currentRoute.any fun pathPool => poolEquals curPool pathPool then
            []
          else if !curPool.involvesToken (previousTokenOut.getD tokenIn) then
            []
          else if tokensVisited.contains
              (lcStr (otherTok curPool (previousTokenOut.getD tokenIn)).address) then
            []
          else
            computeRoutesAux tokenIn tokenOut pools maxHops fuel
              (currentRoute ++ [curPool]) (poolsUsed.set i true)
              (tokensVisited ++
                [lcStr (otherTok curPool (previousTokenOut.getD tokenIn)).address])
              (some (otherTok curPool (previousTokenOut.getD tokenIn)))

/-- `computeAllRoutes` from compute-all-routes.ts.  The `buildRoute`
callback of the source wraps a pool path together with the requested
token pair into a route object of the protocol at hand; it is captured
here by the protocol tag. -/
def computeAllRoutesE (proto : RouteProtocol) (tokenIn tokenOut : NativeToken)
    (pools : List TPool) (maxHops : Nat) : List Route :=
  (computeRoutesAux tokenIn tokenOut pools maxHops (maxHops + 2) []
      (List.replicate pools.length false) [lcStr tokenIn.address] none).map
    fun ps => ⟨proto, ps, tokenIn, tokenOut⟩

/-- `computeAllV3Routes`. -/
def computeAllV3RoutesE (tokenIn tokenOut : NativeToken) (pools : List TPool)
    (maxHops : Nat) : List Route :=
  computeAllRoutesE .v3 tokenIn tokenOut pools maxHops

/-- `computeAllV2Routes`. -/
def computeAllV2RoutesE (tokenIn tokenOut : NativeToken) (pools : List TPool)
    (maxHops : Nat) : List Route :=
  computeAllRoutesE .v2 tokenIn tokenOut pools maxHops

/-- `computeAllStableRoutes`. -/
def computeAllStableRoutesE (tokenIn tokenOut : NativeToken) (pools : List TPool)
    (maxHops : Nat) : List Route :=
  computeAllRoutesE .stable tokenIn tokenOut pools maxHops

/-- `computeAllStableWrapperRoutes`. -/
def computeAllStableWrapperRoutesE (tokenIn tokenOut : NativeToken)
    (pools : List TPool) (maxHops : Nat) : List Route :=
  computeAllRoutesE .stableWrapper tokenIn tokenOut pools maxHops

/-- The post-filter of `computeAllMixedRoutes`: drop routes with fewer
than two pools, and routes in which every pool has the constructor of the
first pool. -/
def mixedKeep (r : Route) : Bool :=
  if r.pools.length < 2 then false
  else
    match r.pools with
    | [] => false
    | p0 :: rest => rest.any fun p => p.variant != p0.variant

/-- `computeAllMixedRoutes`. -/
def computeAllMixedRoutesE (tokenIn tokenOut : NativeToken) (parts : List TPool)
    (maxHops : Nat) : List Route :=
  (computeAllRoutesE .mixed tokenIn tokenOut parts maxHops).filter mixedKeep

/-- Two pools share a token: some side of `b` equals some side of `a`. -/
def sharesTokenB (a b : TPool) : Bool :=
  b.token0.equalsTok a.token0 || b.token1.equalsTok a.token0 ||
  b.token0.equalsTok a.token1 || b.token1.equalsTok a.token1

lemma equalsTok_addr {a b : NativeToken} (h : a.equalsTok b = true) :
    a.address = b.address := by
  simp only [NativeToken.equalsTok, Bool.and_eq_true, beq_iff_eq] at h
  exact h.2

lemma poolEquals_comm (a b : TPool) : poolEquals a b = poolEquals b a := by
  cases a <;> cases b <;> simp [poolEquals, beq_iff_eq, eq_comm]

lemma self_mem_routeChain (t : NativeToken) (ps : List TPool) :
    t ∈ routeChain t ps := by
  cases ps <;> simp [routeChain]

lemma chainEnd_append (t : NativeToken) (ps : List TPool) (p : TPool) :
    chainEnd t (ps ++ [p]) = otherTok p (chainEnd t ps) := by
  induction ps generalizing t with
  | nil => rfl
  | cons q qs ih => simpa [chainEnd] using ih (otherTok q t)

lemma routeChain_append (t : NativeToken) (ps : List TPool) (p : TPool) :
    routeChain t (ps ++ [p]) = routeChain t ps ++ [otherTok p (chainEnd t ps)] := by
  induction ps generalizing t with
  | nil => rfl
  | cons q qs ih => simpa [routeChain, chainEnd] using ih (otherTok q t)

lemma chainLinked_append (t : NativeToken) (ps : List TPool) (p : TPool) :
    chainLinked t (ps ++ [p]) =
      (chainLinked t ps && p.involvesToken (chainEnd t ps)) := by
  induction ps generalizing t with
  | nil => simp [chainLinked, chainEnd]
  | cons q qs ih => simp [chainLinked, chainEnd, ih (otherTok q t), Bool.and_assoc]

/-- Every pool of a linked path has both of its (lowercased) token
addresses in the lowercased token chain — exactly the observation that
makes the `tokensVisited` set prevent any pool from being used twice. -/
lemma mem_pool_tokens_in_chain {t : NativeToken} {ps : List TPool}
    (hlink : chainLinked t ps = true) {q : TPool} (hq : q ∈ ps) :
    lcStr q.token0.address ∈ (routeChain t ps).map (fun x => lcStr x.address) ∧
    lcStr q.token1.address ∈ (routeChain t ps).map (fun x => lcStr x.address) := by
  induction ps generalizing t with
  | nil => simp at hq
  | cons p rest ih =>
    simp only [chainLinked, Bool.and_eq_true] at hlink
    obtain ⟨hinv, hrest⟩ := hlink
    have hchain : routeChain t (p :: rest) = t :: routeChain (otherTok p t) rest := rfl
    rcases List.mem_cons.mp hq with rfl | hq'
    · have hcases : q.token0.equalsTok t = true ∨ q.token1.equalsTok t = true := by
        simpa [TPool.involvesToken] using hinv
      by_cases h0 : q.token0.equalsTok t = true
      · have hother : otherTok q t = q.token1 := by simp [otherTok, h0]
        constructor
        · rw [hchain]
          exact List.mem_map.mpr ⟨t, List.mem_cons_self _ _, by rw [equalsTok_addr h0]⟩
        · rw [hchain, List.map_cons]
          exact List.mem_cons_of_mem _ (List.mem_map.mpr
            ⟨q.token1, by rw [hother]; exact self_mem_routeChain _ _, rfl⟩)
      · have h1 : q.token1.equalsTok t = true := by tauto
        have hother : otherTok q t = q.token0 := by simp [otherTok, h0]
        constructor
        · rw [hchain, List.map_cons]
          exact List.mem_cons_of_mem _ (List.mem_map.mpr
            ⟨q.token0, by rw [hother]; exact self_mem_routeChain _ _, rfl⟩)
        · rw [hchain]
          exact List.mem_map.mpr ⟨t, List.mem_cons_self _ _, by rw [equalsTok_addr h1]⟩
    · have := ih hrest hq'
      rw [hchain, List.map_cons]
      exact ⟨List.mem_cons_of_mem _ this.1, List.mem_cons_of_mem _ this.2⟩

/-- Consecutive pools of a linked path share a token. -/
lemma chainLinked_chain' {t : NativeToken} {ps : List TPool}
    (hlink : chainLinked t ps = true) :
    List.Chain' (fun a b => sharesTokenB a b = true) ps := by
  induction ps generalizing t with
  | nil => simp
  | cons p rest ih =>
    simp only [chainLinked, Bool.and_eq_true] at hlink
    obtain ⟨_, hrest⟩ := hlink
    cases rest with
    | nil => simp
    | cons q rest' =>
      rw [List.chain'_cons]
      refine ⟨?_, ih hrest⟩
      have hqinv : q.involvesToken (otherTok p t) = true := by
        simp only [chainLinked, Bool.and_eq_true] at hrest
        exact hrest.1
      by_cases h0 : p.token0.equalsTok t = true
      · have : otherTok p t = p.token1 := by simp [otherTok, h0]
        rw [this] at hqinv
        simp only [TPool.involvesToken, Bool.or_eq_true] at hqinv
        rcases hqinv with h | h <;> simp [sharesTokenB, h]
      · have : otherTok p t = p.token0 := by simp [otherTok, h0]
        rw [this] at hqinv
        simp only [TPool.involvesToken, Bool.or_eq_true] at hqinv
        rcases hqinv with h | h <;> simp [sharesTokenB, h]

/-- Soundness invariant of the enumerator recursion: every emitted pool
path is a linked simple path of bounded length ending at `tokenOut`. -/
lemma computeRoutesAux_sound
    (tokenIn tokenOut : NativeToken) (pools : List TPool) (maxHops : Nat) :
    ∀ (fuel : Nat) (currentRoute : List TPool) (poolsUsed : List Bool)
      (visited : List String) (prev : Option NativeToken),
      chainLinked tokenIn currentRoute = true →
      visited = (routeChain tokenIn currentRoute).map (fun x => lcStr x.address) →
      prev.getD tokenIn = chainEnd tokenIn currentRoute →
      (routeChain tokenIn currentRoute).Pairwise
        (fun a b => lcStr a.address ≠ lcStr b.address) →
      currentRoute.Pairwise (fun a b => poolEquals a b = false) →
      currentRoute.Pairwise (fun a b => a ≠ b) →
      ∀ ps ∈ computeRoutesAux tokenIn tokenOut pools maxHops fuel
          currentRoute poolsUsed visited prev,
        ps ≠ [] ∧ chainLinked tokenIn ps = true ∧
        (∃ lastP, ps.getLast? = some lastP ∧ lastP.involvesToken tokenOut = true) ∧
        ps.length ≤ maxHops ∧
        (routeChain tokenIn ps).Pairwise
          (fun a b => lcStr a.address ≠ lcStr b.address) ∧
        ps.Pairwise (fun a b => poolEquals a b = false) ∧
        ps.Pairwise (fun a b => a ≠ b) := by
  intro fuel
  induction fuel with
  | zero =>
    intro cr pu vis prev _ _ _ _ _ _ ps hps
    simp [computeRoutesAux] at hps
  | succ fuel ih =>
    intro cr pu vis prev hlink hvis hprev hchainPW hpeqPW hnePW ps hps
    rw [computeRoutesAux] at hps
    split at hps
    · simp at hps
    next hlen =>
      split at hps
      next hlast =>
        rw [List.mem_singleton] at hps
        subst hps
        have hex : ∃ lastP, ps.getLast? = some lastP ∧
            lastP.involvesToken tokenOut = true := by
          cases hg : ps.getLast? with
          | none => rw [hg] at hlast; simp at hlast
          | some lastP =>
            rw [hg] at hlast
            exact ⟨lastP, rfl, by simpa using hlast⟩
        refine ⟨?_, hlink, hex, by omega, hchainPW, hpeqPW, hnePW⟩
        intro hnil
        obtain ⟨lastP, hg, _⟩ := hex
        rw [hnil] at hg
        simp at hg
      next =>
        obtain ⟨i, _, hmem⟩ := List.mem_flatMap.mp hps
        split at hmem
        next => simp at hmem
        next curPool hpi =>
          split at hmem
          next => simp at hmem
          next hused =>
            split at hmem
            next => simp at hmem
            next hdup =>
              split at hmem
              next => simp at hmem
              next hinvB =>
                split at hmem
                next => simp at hmem
                next hvisB =>
                  have hinv : curPool.involvesToken (prev.getD tokenIn) = true := by
                    simpa using hinvB
                  have hvisC : lcStr (otherTok curPool (prev.getD tokenIn)).address ∉ vis := by
                    simpa using hvisB
                  have hdupC : ∀ a ∈ cr, poolEquals curPool a = false := by
                    intro a ha
                    by_contra hcontra
                    exact hdup (List.any_eq_true.mpr
                      ⟨a, ha, by simpa using hcontra⟩)
                  have hnewLink : chainLinked tokenIn (cr ++ [curPool]) = true := by
                    rw [chainLinked_append, Bool.and_eq_true]
                    exact ⟨hlink, by rw [← hprev]; exact hinv⟩
                  have hnotInChain :
                      ∀ a ∈ routeChain tokenIn cr,
                        lcStr a.address ≠
                          lcStr (otherTok curPool (prev.getD tokenIn)).address := by
                    intro a ha heq
                    exact hvisC (hvis ▸ (heq ▸ List.mem_map.mpr ⟨a, ha, rfl⟩))
                  have hfresh : curPool ∉ cr := by
                    intro hcur
                    have hboth := mem_pool_tokens_in_chain hlink hcur
                    have hout :
                        otherTok curPool (prev.getD tokenIn) = curPool.token1 ∨
                        otherTok curPool (prev.getD tokenIn) = curPool.token0 := by
                      by_cases h : curPool.token0.equalsTok (prev.getD tokenIn) = true
                      · exact Or.inl (by simp [otherTok, h])
                      · exact Or.inr (by simp [otherTok, h])
                    rcases hout with hout | hout
                    · exact hvisC (hvis ▸ (hout ▸ hboth.2))
                    · exact hvisC (hvis ▸ (hout ▸ hboth.1))
                  refine ih (cr ++ [curPool]) (pu.set i true) _ _
                    hnewLink ?_ ?_ ?_ ?_ ?_ ps hmem
                  · rw [routeChain_append, List.map_append, hvis, hprev]; simp
                  · simp [chainEnd_append, hprev]
                  · rw [routeChain_append, List.pairwise_append]
                    refine ⟨hchainPW, List.pairwise_singleton _ _, ?_⟩
                    intro a ha b hb
                    rw [List.mem_singleton] at hb
                    subst hb
                    rw [← hprev]
                    exact hnotInChain a ha
                  · rw [List.pairwise_append]
                    refine ⟨hpeqPW, List.pairwise_singleton _ _, ?_⟩
                    intro a ha b hb
                    rw [List.mem_singleton] at hb
                    subst hb
                    rw [poolEquals_comm]
                    exact hdupC a ha
                  · rw [List.pairwise_append]
                    refine ⟨hnePW, List.pairwise_singleton _ _, ?_⟩
                    intro a ha b hb
                    rw [List.mem_singleton] at hb
                    subst hb
                    intro hab
                    exact hfresh (hab ▸ ha)

/-- C1.  Every route returned by `computeAllRoutes` (hence by each of its
V2 / V3 / Stable / StableWrapper / Mixed wrappers, which all delegate to
it): the route records the requested input and output tokens, its pool
path is non-empty and linked (each pool involves its entry chain token,
so adjacent pools share a token), the first pool involves `tokenIn`, the
last pool involves `tokenOut`, the number of pools is at most `maxHops`,
no token is revisited along the path, no two composable stable pools
share a pool id (`poolEquals`), and no pool appears twice. -/
theorem computeAllRoutes_route_invariants
    (proto : RouteProtocol) (tokenIn tokenOut : NativeToken)
    (pools : List TPool) (maxHops : Nat) (r : Route)
    (hr : r ∈ computeAllRoutesE proto tokenIn tokenOut pools maxHops) :
    r.input = tokenIn ∧ r.output = tokenOut ∧
    r.pools ≠ [] ∧
    chainLinked tokenIn r.pools = true ∧
    (∃ p0, r.pools.head? = some p0 ∧ p0.involvesToken tokenIn = true) ∧
    List.Chain' (fun a b => sharesTokenB a b = true) r.pools ∧
    (∃ lastP, r.pools.getLast? = some lastP ∧
      lastP.involvesToken tokenOut = true) ∧
    r.pools.length ≤ maxHops ∧
    (routeChain tokenIn r.pools).Pairwise
      (fun a b => lcStr a.address ≠ lcStr b.address) ∧
    r.pools.Pairwise (fun a b => poolEquals a b = false) ∧
    r.pools.Pairwise (fun a b => a ≠ b) := by
  obtain ⟨ps, hps, rfl⟩ := List.mem_map.mp hr
  have h := computeRoutesAux_sound tokenIn tokenOut pools maxHops (maxHops + 2)
    [] (List.replicate pools.length false) [lcStr tokenIn.address] none
    rfl rfl rfl (List.pairwise_singleton _ _) List.Pairwise.nil List.Pairwise.nil
    ps hps
  obtain ⟨hne, hlink, hlast, hlen, hchainPW, hpeq, hneq⟩ := h
  refine ⟨rfl, rfl, hne, hlink, ?_, chainLinked_chain' hlink, hlast, hlen,
    hchainPW, hpeq, hneq⟩
  cases hcr : ps with
  | nil => exact absurd hcr hne
  | cons p0 rest =>
    refine ⟨p0, rfl, ?_⟩
    rw [hcr] at hlink
    simp only [chainLinked, Bool.and_eq_true] at hlink
    exact hlink.1

/-- Concrete data used by the witness theorems. -/
def wTokA : NativeToken := ⟨1, "0xa1", 18, "WTA"⟩

def wTokB : NativeToken := ⟨1, "0xb2", 18, "WTB"⟩

def wTokC : NativeToken := ⟨1, "0xc3", 18, "WTC"⟩

def wPoolAB : TPool := .v3 wTokA wTokB 500

def wPoolBC : TPool := .stable wTokB wTokC "0xpool1"

def wRouteAC : Route := ⟨.mixed, [wPoolAB, wPoolBC], wTokA, wTokC⟩

/-- Witness for C1 at a concrete input: the two-hop route is enumerated
and satisfies every invariant. -/
theorem computeAllRoutes_route_invariants_witness :
    wRouteAC ∈ computeAllRoutesE .mixed wTokA wTokC [wPoolAB, wPoolBC] 5 ∧
    (wRouteAC.input = wTokA ∧ wRouteAC.output = wTokC ∧
      wRouteAC.pools ≠ [] ∧
      chainLinked wTokA wRouteAC.pools = true ∧
      (∃ p0, wRouteAC.pools.head? = some p0 ∧
        p0.involvesToken wTokA = true) ∧
      List.Chain' (fun a b => sharesTokenB a b = true) wRouteAC.pools ∧
      (∃ lastP, wRouteAC.pools.getLast? = some lastP ∧
        lastP.involvesToken wTokC = true) ∧
      wRouteAC.pools.length ≤ 5 ∧
      (routeChain wTokA wRouteAC.pools).Pairwise
        (fun a b => lcStr a.address ≠ lcStr b.address) ∧
      wRouteAC.pools.Pairwise (fun a b => poolEquals a b = false) ∧
      wRouteAC.pools.Pairwise (fun a b => a ≠ b)) :=
  ⟨by decide, computeAllRoutes_route_invariants .mixed wTokA wTokC
    [wPoolAB, wPoolBC] 5 wRouteAC (by decide)⟩

/-- C2.  Every route kept by `computeAllMixedRoutes` has at least two
pools and pools of at least two distinct variants; every enumerated path
with fewer than two pools, or whose pools are all of one variant, is
removed by the filter. -/
lemma mixedKeep_eq_true (r : Route) :
    mixedKeep r = true ↔
      2 ≤ r.pools.length ∧
      ∃ p ∈ r.pools, ∃ q ∈ r.pools, p.variant ≠ q.variant := by
  rw [mixedKeep]
  cases hpool : r.pools with
  | nil => simp
  | cons p0 rest =>
    constructor
    · intro h
      split at h
      · simp at h
      next hlen =>
        obtain ⟨q, hq, hne⟩ := List.any_eq_true.mp h
        rw [bne_iff_ne] at hne
        refine ⟨by simp only [List.length_cons] at hlen ⊢; omega,
          p0, List.mem_cons_self _ _, q, List.mem_cons_of_mem _ hq, ?_⟩
        exact fun he => hne he.symm
    · rintro ⟨hlen, p, hp, q, hq, hpq⟩
      rw [if_neg (by simp only [List.length_cons] at hlen ⊢; omega)]
      by_contra hall
      have hall' : ∀ x ∈ rest, x.variant = p0.variant := by
        intro x hx
        by_contra hxne
        exact hall (List.any_eq_true.mpr ⟨x, hx, bne_iff_ne.mpr hxne⟩)
      have hvar : ∀ x ∈ p0 :: rest, x.variant = p0.variant := by
        intro x hx
        rcases List.mem_cons.mp hx with rfl | hx'
        · rfl
        · exact hall' x hx'
      exact hpq ((hvar p hp).trans (hvar q hq).symm)

/-- C2.  Every route kept by `computeAllMixedRoutes` has at least two
pools and pools of at least two distinct variants; every enumerated path
with fewer than two pools, or whose pools are all of one variant, is
removed by the filter. -/
theorem computeAllMixedRoutes_mixed_filter
    (tokenIn tokenOut : NativeToken) (parts : List TPool) (maxHops : Nat) :
    (∀ r ∈ computeAllMixedRoutesE tokenIn tokenOut parts maxHops,
      2 ≤ r.pools.length ∧
      ∃ p ∈ r.pools, ∃ q ∈ r.pools, p.variant ≠ q.variant) ∧
    (∀ r ∈ computeAllRoutesE .mixed tokenIn tokenOut parts maxHops,
      (r.pools.length < 2 ∨ ∀ p ∈ r.pools, ∀ q ∈ r.pools, p.variant = q.variant) →
      r ∉ computeAllMixedRoutesE tokenIn tokenOut parts maxHops) := by
  constructor
  · intro r hr
    exact (mixedKeep_eq_true r).mp (List.mem_filter.mp hr).2
  · intro r _ hcond hmem
    have h := (mixedKeep_eq_true r).mp (List.mem_filter.mp hmem).2
    rcases hcond with hlt | hsame
    · omega
    · obtain ⟨_, p, hp, q, hq, hpq⟩ := h
      exact hpq (hsame p hp q hq)

/-- Witness for C2 at a concrete input: the v3+stable route passes the
filter and indeed has two pools of two variants. -/
theorem computeAllMixedRoutes_mixed_filter_witness :
    wRouteAC ∈ computeAllMixedRoutesE wTokA wTokC [wPoolAB, wPoolBC] 5 ∧
    (2 ≤ wRouteAC.pools.length ∧
      ∃ p ∈ wRouteAC.pools, ∃ q ∈ wRouteAC.pools, p.variant ≠ q.variant) :=
  ⟨by decide, (computeAllMixedRoutes_mixed_filter wTokA wTokC
    [wPoolAB, wPoolBC] 5).1 wRouteAC (by decide)⟩

/-- Trade type (hermes-v2-sdk `TradeType`). -/
inductive TradeType where
  | EXACT_INPUT
  | EXACT_OUTPUT
  deriving DecidableEq, Repr

/-- An exact currency amount (sdk `CurrencyAmount`): a currency tag plus
an arbitrary-precision rational value. -/
structure CurrencyAmount where
  currency : NativeToken
  value : Rat
  deriving DecidableEq, Repr

/-- `CurrencyAmount.fromRawAmount(currency, raw)`. -/
def fromRawAmount (t : NativeToken) (raw : Int) : CurrencyAmount :=
  ⟨t, (raw : Rat)⟩

/-- sdk `CurrencyAmount.add`; the sdk asserts both currencies are equal
and keeps the left currency. -/
def addAmt (a b : CurrencyAmount) : CurrencyAmount :=
  ⟨a.currency, a.value + b.value⟩

/-- sdk `CurrencyAmount.subtract`. -/
def subAmt (a b : CurrencyAmount) : CurrencyAmount :=
  ⟨a.currency, a.value - b.value⟩

/-- What `gasModel.estimateGasCost` returns. -/
structure GasCostResultE where
  gasEstimate : Int
  gasCostInToken : CurrencyAmount
  gasCostInUSD : CurrencyAmount
  gasCostInGasToken : Option CurrencyAmount
  deriving DecidableEq, Repr

/-- The fields of a `RouteWithValidQuote` that are already assigned when
the constructor calls `this.gasModel.estimateGasCost(this)`; the gas
model is modelled as a function of these. -/
structure PreQuoteData where
  protocol : RouteProtocol
  amount : CurrencyAmount
  rawQuote : Int
  sqrtPriceX96AfterList : List Int := []
  initializedTicksCrossedList : List Int := []
  quoterGasEstimate : Option Int := none
  quote : CurrencyAmount
  percent : Nat
  route : Route
  quoteToken : NativeToken
  tradeType : TradeType

/-- A constructed `RouteWithValidQuote` (fields shared by the five
classes; the derived display fields `poolAddresses` and `tokenPath` are
not involved in any claim and are omitted). -/
structure RouteWithValidQuoteE where
  protocol : RouteProtocol
  amount : CurrencyAmount
  rawQuote : Int
  quote : CurrencyAmount
  quoteAdjustedForGas : CurrencyAmount
  percent : Nat
  route : Route
  quoteToken : NativeToken
  tradeType : TradeType
  gasEstimate : Int
  gasCostInToken : CurrencyAmount
  gasCostInUSD : CurrencyAmount
  gasCostInGasToken : Option CurrencyAmount

/-- Shared constructor body: `quote = fromRawAmount(quoteToken,
rawQuote)`, ask the gas model, then set `quoteAdjustedForGas` to
`quote - gasCostInToken` for exact-in and `quote + gasCostInToken` for
exact-out, exactly as in each of the five constructors. -/
def mkRouteWithValidQuoteCore (protocol : RouteProtocol)
    (amount : CurrencyAmount) (rawQuote : Int)
    (sqrts ticks : List Int) (quoterGasEstimate : Option Int)
    (percent : Nat) (route : Route)
    (gasModel : PreQuoteData → GasCostResultE)
    (quoteToken : NativeToken) (tradeType : TradeType) : RouteWithValidQuoteE :=
  let quote := fromRawAmount quoteToken rawQuote
  let g := gasModel
    { protocol, amount, rawQuote, sqrtPriceX96AfterList := sqrts,
      initializedTicksCrossedList := ticks, quoterGasEstimate, quote,
      percent, route, quoteToken, tradeType }
  { protocol, amount, rawQuote, quote,
    quoteAdjustedForGas :=
      if tradeType = TradeType.EXACT_INPUT then subAmt quote g.gasCostInToken
      else addAmt quote g.gasCostInToken,
    percent, route, quoteToken, tradeType,
    gasEstimate := g.gasEstimate, gasCostInToken := g.gasCostInToken,
    gasCostInUSD := g.gasCostInUSD, gasCostInGasToken := g.gasCostInGasToken }

/-- `new V2RouteWithValidQuote(...)`. -/
def mkV2RouteWithValidQuoteE (amount : CurrencyAmount) (rawQuote : Int)
    (percent : Nat) (route : Route) (gasModel : PreQuoteData → GasCostResultE)
    (quoteToken : NativeToken) (tradeType : TradeType) : RouteWithValidQuoteE :=
  mkRouteWithValidQuoteCore .v2 amount rawQuote [] [] none percent route
    gasModel quoteToken tradeType

/-- `new V3RouteWithValidQuote(...)`. -/
def mkV3RouteWithValidQuoteE (amount : CurrencyAmount) (rawQuote : Int)
    (sqrtPriceX96AfterList initializedTicksCrossedList : List Int)
    (quoterGasEstimate : Int) (percent : Nat) (route : Route)
    (gasModel : PreQuoteData → GasCostResultE)
    (quoteToken : NativeToken) (tradeType : TradeType) : RouteWithValidQuoteE :=
  mkRouteWithValidQuoteCore .v3 amount rawQuote sqrtPriceX96AfterList
    initializedTicksCrossedList (some quoterGasEstimate) percent route
    gasModel quoteToken tradeType

/-- `new StableRouteWithValidQuote(...)`. -/
def mkStableRouteWithValidQuoteE (amount : CurrencyAmount) (rawQuote : Int)
    (percent : Nat) (route : Route) (gasModel : PreQuoteData → GasCostResultE)
    (quoteToken : NativeToken) (tradeType : TradeType) : RouteWithValidQuoteE :=
  mkRouteWithValidQuoteCore .stable amount rawQuote [] [] none percent route
    gasModel quoteToken tradeType

/-- `new StableWrapperRouteWithValidQuote(...)`. -/
def mkStableWrapperRouteWithValidQuoteE (amount : CurrencyAmount)
    (rawQuote : Int) (percent : Nat) (route : Route)
    (gasModel : PreQuoteData → GasCostResultE)
    (quoteToken : NativeToken) (tradeType : TradeType) : RouteWithValidQuoteE :=
  mkRouteWithValidQuoteCore .stableWrapper amount rawQuote [] [] none percent
    route gasModel quoteToken tradeType

/-- `new MixedRouteWithValidQuote(...)`. -/
def mkMixedRouteWithValidQuoteE (amount : CurrencyAmount) (rawQuote : Int)
    (sqrtPriceX96AfterList initializedTicksCrossedList : List Int)
    (percent : Nat) (route : Route) (gasModel : PreQuoteData → GasCostResultE)
    (quoteToken : NativeToken) (tradeType : TradeType) : RouteWithValidQuoteE :=
  mkRouteWithValidQuoteCore .mixed amount rawQuote sqrtPriceX96AfterList
    initializedTicksCrossedList none percent route gasModel quoteToken tradeType

/-- The gas-adjustment property of one constructed quote object. -/
def gasAdjustedCorrectly (rq : RouteWithValidQuoteE) : Prop :=
  rq.quoteAdjustedForGas =
    if rq.tradeType = TradeType.EXACT_INPUT then subAmt rq.quote rq.gasCostInToken
    else addAmt rq.quote rq.gasCostInToken

/-- C4.  Every `RouteWithValidQuote` constructed — V2, V3, Stable,
StableWrapper or Mixed — satisfies `quoteAdjustedForGas = quote -
gasCostInToken` for `EXACT_INPUT` and `quote + gasCostInToken` for
`EXACT_OUTPUT`, in the quote token. -/
theorem routeWithValidQuote_gas_adjustment
    (amount : CurrencyAmount) (rawQuote : Int) (sqrts ticks : List Int)
    (quoterGasEstimate : Int) (percent : Nat) (route : Route)
    (gasModel : PreQuoteData → GasCostResultE) (quoteToken : NativeToken)
    (tradeType : TradeType) :
    gasAdjustedCorrectly (mkV2RouteWithValidQuoteE amount rawQuote percent
      route gasModel quoteToken tradeType) ∧
    gasAdjustedCorrectly (mkV3RouteWithValidQuoteE amount rawQuote sqrts
      ticks quoterGasEstimate percent route gasModel quoteToken tradeType) ∧
    gasAdjustedCorrectly (mkStableRouteWithValidQuoteE amount rawQuote percent
      route gasModel quoteToken tradeType) ∧
    gasAdjustedCorrectly (mkStableWrapperRouteWithValidQuoteE amount rawQuote
      percent route gasModel quoteToken tradeType) ∧
    gasAdjustedCorrectly (mkMixedRouteWithValidQuoteE amount rawQuote sqrts
      ticks percent route gasModel quoteToken tradeType) := by
  cases tradeType <;>
    exact ⟨rfl, rfl, rfl, rfl, rfl⟩

/-- Shape of `IOnChainQuoteProvider.getQuotesManyExactIn` /
`getQuotesManyExactOut`: for each route, one `(amount, quote or null)`
per requested amount. -/
def QuoterFn : Type :=
  List CurrencyAmount → List Route → List (Route × List (CurrencyAmount × Option Int))

/-- `MixedQuoter.getRoutes` (mixed-quoter.ts).  The source first checks
the trade type and throws for anything but `EXACT_INPUT`; the candidate
pools it would then assemble from the V3 and Stable providers (and pass
through the token validator) are taken here as the `pools` argument. -/
def mixedGetRoutesE (tokenIn tokenOut : NativeToken) (pools : List TPool)
    (tradeType : TradeType) (maxSwapsPerPath : Nat) :
    Except String (List Route) :=
  if tradeType ≠ TradeType.EXACT_INPUT then
    .error "Mixed route quotes are not supported for EXACT_OUTPUT"
  else
    .ok (computeAllMixedRoutesE tokenIn tokenOut pools maxSwapsPerPath)

/-- `StableQuoter.getQuotes` (stable quoter).  The source requires a gas
model, returns early on an empty route list, then — with the exact-out
branch left as a TODO comment — always binds
`onChainQuoteProvider.getQuotesManyExactIn` as the quote function, for
every trade type, builds a `StableRouteWithValidQuote` for every
non-null quote and skips null quotes. -/
def stableGetQuotesE (routes : List Route) (amounts : List CurrencyAmount)
    (percents : List Nat) (quoteToken : NativeToken) (tradeType : TradeType)
    (gasModel : Option (PreQuoteData → GasCostResultE))
    (getQuotesManyExactIn getQuotesManyExactOut : QuoterFn) :
    Except String (List RouteWithValidQuoteE) :=
  match gasModel with
  | none =>
    .error "GasModel for StableRouteWithValidQuote is required to getQuotes"
  | some gm =>
    if routes.length = 0 then .ok []
    else
      let quoteFn := getQuotesManyExactIn
      let routesWithQuotes := quoteFn amounts routes
      .ok (routesWithQuotes.flatMap fun routeWithQuote =>
        (List.range routeWithQuote.2.length).filterMap fun i =>
          match routeWithQuote.2[i]?, percents[i]? with
          | some (amount, some quote), some percent =>
            some (mkStableRouteWithValidQuoteE amount quote percent
              routeWithQuote.1 gm quoteToken tradeType)
          | _, _ => none)

def wStableRoute : Route := ⟨.stable, [wPoolBC], wTokB, wTokC⟩

/-- A trivial gas model used for concrete evaluation. -/
def wGasModel : PreQuoteData → GasCostResultE := fun _ =>
  ⟨0, ⟨wTokC, 0⟩, ⟨wTokC, 0⟩, none⟩

/-- An exact-in quoter returning quote 42 for the single amount. -/
def wQuoterIn : QuoterFn := fun amounts routes =>
  routes.map fun r => (r, amounts.map fun a => (a, some 42))

/-- An exact-out quoter; never consulted by the stable quoter. -/
def wQuoterOut : QuoterFn := fun amounts routes =>
  routes.map fun r => (r, amounts.map fun a => (a, some 7))

/-- Counterexample to C3: for an `EXACT_OUTPUT` request the stable
quoter does not surface any unsupported-trade-type error — it returns a
successful result whose quote (42) was produced by the exact-input
quoter. -/
theorem stableGetQuotes_exact_output_not_refused :
    stableGetQuotesE [wStableRoute] [⟨wTokB, 100⟩] [100] wTokC
      TradeType.EXACT_OUTPUT (some wGasModel) wQuoterIn wQuoterOut =
    .ok [mkStableRouteWithValidQuoteE ⟨wTokB, 100⟩ 42 100 wStableRoute
      wGasModel wTokC TradeType.EXACT_OUTPUT] := by
  rfl

/-- C3 (amended).  The mixed quoter refuses any non-`EXACT_INPUT`
request in `getRoutes` by surfacing the unsupported-trade-type error;
the stable quoter never checks the trade type: its result is
independent of the exact-out quoter (it always quotes via the
exact-input quoter) and, given a gas model, it succeeds for every trade
type including `EXACT_OUTPUT`. -/
theorem mixed_refuses_stable_quotes_exact_in
    (tokenIn tokenOut : NativeToken) (pools : List TPool)
    (tradeType : TradeType) (maxSwapsPerPath : Nat)
    (routes : List Route) (amounts : List CurrencyAmount)
    (percents : List Nat) (quoteToken : NativeToken)
    (gm : PreQuoteData → GasCostResultE)
    (fIn fOut fOut' : QuoterFn)
    (h : tradeType ≠ TradeType.EXACT_INPUT) :
    mixedGetRoutesE tokenIn tokenOut pools tradeType maxSwapsPerPath =
      .error "Mixed route quotes are not supported for EXACT_OUTPUT" ∧
    stableGetQuotesE routes amounts percents quoteToken tradeType (some gm)
        fIn fOut =
      stableGetQuotesE routes amounts percents quoteToken tradeType (some gm)
        fIn fOut' ∧
    (stableGetQuotesE routes amounts percents quoteToken tradeType (some gm)
        fIn fOut).isOk = true := by
  refine ⟨?_, rfl, ?_⟩
  · rw [mixedGetRoutesE, if_pos h]
  · rw [stableGetQuotesE]
    split <;> rfl

/-- Witness for C3 (amended) at a concrete `EXACT_OUTPUT` request. -/
theorem mixed_refuses_stable_quotes_exact_in_witness :
    mixedGetRoutesE wTokA wTokC [wPoolAB, wPoolBC] TradeType.EXACT_OUTPUT 5 =
      .error "Mixed route quotes are not supported for EXACT_OUTPUT" ∧
    stableGetQuotesE [wStableRoute] [⟨wTokB, 100⟩] [100] wTokC
        TradeType.EXACT_OUTPUT (some wGasModel) wQuoterIn wQuoterOut =
      stableGetQuotesE [wStableRoute] [⟨wTokB, 100⟩] [100] wTokC
        TradeType.EXACT_OUTPUT (some wGasModel) wQuoterIn wQuoterIn ∧
    (stableGetQuotesE [wStableRoute] [⟨wTokB, 100⟩] [100] wTokC
        TradeType.EXACT_OUTPUT (some wGasModel) wQuoterIn wQuoterOut).isOk =
      true :=
  mixed_refuses_stable_quotes_exact_in wTokA wTokC [wPoolAB, wPoolBC]
    TradeType.EXACT_OUTPUT 5 [wStableRoute] [⟨wTokB, 100⟩] [100] wTokC
    wGasModel wQuoterIn wQuoterOut wQuoterIn (by decide)

lemma lowerTable_length : lowerTable.length = 26 := by decide

lemma lowerTable_not_upper : ∀ x ∈ lowerTable, x.isUpper = false := by decide

lemma isUpper_toNat {c : Char} (h : c.isUpper = true) :
    65 ≤ c.toNat ∧ c.toNat ≤ 90 := by
  simpa [Char.isUpper] using h

lemma lcChar_not_upper (c : Char) : (lcChar c).isUpper = false := by
  rw [lcChar]
  by_cases hu : c.isUpper = true
  · rw [if_pos hu]
    have hlt : c.toNat - 65 < lowerTable.length := by
      have := isUpper_toNat hu
      rw [lowerTable_length]
      omega
    rw [List.getD_eq_getElem _ _ hlt]
    exact lowerTable_not_upper _ (List.getElem_mem hlt)
  · rw [if_neg hu]
    exact Bool.not_eq_true _ ▸ (by simpa using hu)

lemma lcChar_idem (c : Char) : lcChar (lcChar c) = lcChar c := by
  have h := lcChar_not_upper c
  rw [lcChar, h]
  simp

lemma lcStr_idem (s : String) : lcStr (lcStr s) = lcStr s := by
  show (⟨(s.data.map lcChar).map lcChar⟩ : String) = ⟨s.data.map lcChar⟩
  rw [List.map_map]
  exact congrArg _ (List.map_congr_left fun c _ => lcChar_idem c)

lemma hasUpper_lcStr (s : String) : hasUpper (lcStr s) = false := by
  rw [hasUpper, lcStr]
  rw [List.any_eq_false]
  intro c hc
  obtain ⟨d, _, rfl⟩ := List.mem_map.mp hc
  simp [lcChar_not_upper]

/-- JS object property read: the value stored at a string key. -/
def objGet (l : List (String × NativeToken)) (k : String) : Option NativeToken :=
  (l.find? fun kv => kv.1 == k).map fun kv => kv.2

/-- JS object property write: overwrite the entry for the key in place
when it exists (JS objects keep first-insertion order), else append. -/
def objSet : List (String × NativeToken) → String → NativeToken →
    List (String × NativeToken)
  | [], k, v => [(k, v)]
  | kv :: rest, k, v =>
    if kv.1 == k then (k, v) :: rest else kv :: objSet rest k v

lemma objGet_objSet_self (l : List (String × NativeToken)) (k : String)
    (v : NativeToken) : objGet (objSet l k v) k = some v := by
  induction l with
  | nil => simp [objSet, objGet, List.find?]
  | cons kv rest ih =>
    by_cases hk : (kv.1 == k) = true
    · simp [objSet, hk, objGet, List.find?]
    · simp only [objSet]
      rw [if_neg hk, objGet, List.find?_cons_of_neg _ (by simpa using hk)]
      exact ih

lemma objGet_objSet_ne (l : List (String × NativeToken)) (k k' : String)
    (v : NativeToken) (hne : k' ≠ k) :
    objGet (objSet l k v) k' = objGet l k' := by
  induction l with
  | nil =>
    have hkk : ¬((k : String) == k') = true := by
      simpa using fun h => hne h.symm
    simp [objSet, objGet, List.find?, hkk]
  | cons kv rest ih =>
    by_cases hk : (kv.1 == k) = true
    · have hkk : ¬((k : String) == k') = true := by
        simpa using fun h => hne h.symm
      have h1 : kv.1 = k := by simpa using hk
      have hkvk : ¬(kv.1 == k') = true := by simpa [h1] using hkk
      simp [objSet, hk, objGet, List.find?, hkk, hkvk]
    · simp only [objSet]
      rw [if_neg hk]
      by_cases hk2 : (kv.1 == k') = true
      · rw [objGet, objGet,
          @List.find?_cons_of_pos _ (fun kv2 => kv2.1 == k') kv (objSet rest k v) hk2,
          @List.find?_cons_of_pos _ (fun kv2 => kv2.1 == k') kv rest hk2]
      · rw [objGet, objGet,
          List.find?_cons_of_neg _ (by simpa using hk2),
          List.find?_cons_of_neg _ (by simpa using hk2)]
        exact ih

/-- lodash `_.uniq`, keeping the first occurrence of each element. -/
def uniqAux : List String → List String → List String
  | [], acc => acc
  | a :: rest, acc =>
    if a ∈ acc then uniqAux rest acc else uniqAux rest (acc ++ [a])

def uniqE (l : List String) : List String := uniqAux l []

lemma mem_uniqAux (l acc : List String) (a : String) :
    a ∈ uniqAux l acc ↔ a ∈ acc ∨ a ∈ l := by
  induction l generalizing acc with
  | nil => simp [uniqAux]
  | cons b rest ih =>
    rw [uniqAux]
    split
    next hb =>
      rw [ih]
      constructor
      · rintro (h | h)
        · exact Or.inl h
        · exact Or.inr (List.mem_cons_of_mem _ h)
      · rintro (h | h)
        · exact Or.inl h
        · rcases List.mem_cons.mp h with rfl | h'
          · exact Or.inl hb
          · exact Or.inr h'
    next =>
      rw [ih]
      simp only [List.mem_append, List.mem_singleton, List.mem_cons]
      tauto

lemma mem_uniqE (l : List String) (a : String) : a ∈ uniqE l ↔ a ∈ l := by
  rw [uniqE, mem_uniqAux]
  simp

/-- The accessor returned by `TokenProvider.getTokens`. -/
structure TokenAccessorE where
  addressToToken : List (String × NativeToken)
  symbolToToken : List (String × NativeToken)

/-- `getTokenByAddress(address)`: look the lowercased address up. -/
def TokenAccessorE.getTokenByAddress (acc : TokenAccessorE)
    (address : String) : Option NativeToken :=
  objGet acc.addressToToken (lcStr address)

/-- `getTokenBySymbol(symbol)`: look the lowercased symbol up. -/
def TokenAccessorE.getTokenBySymbol (acc : TokenAccessorE)
    (symbol : String) : Option NativeToken :=
  objGet acc.symbolToToken (lcStr symbol)

/-- `getAllTokens()` (`Object.values` of the address map). -/
def TokenAccessorE.getAllTokens (acc : TokenAccessorE) : List NativeToken :=
  acc.addressToToken.map fun kv => kv.2

/-- One address of the `TokenProvider.getTokens` loop: the token is
built only when both the symbol multicall result and the decimals
multicall result at this address decoded successfully (`success`); the
multicall responses are modelled by the two functions. -/
def fetchToken (chainId : Nat) (symbolOf : String → Option String)
    (decimalsOf : String → Option Nat) (address : String) :
    Option NativeToken :=
  match symbolOf address, decimalsOf address with
  | some symbol, some decimal => some ⟨chainId, address, decimal, symbol⟩
  | _, _ => none

/-- The `for` loop of `TokenProvider.getTokens`: the token is skipped
when either result failed (`continue`), otherwise it is stored under its
lowercased address and its lowercased symbol. -/
def tokenFold (chainId : Nat) (symbolOf : String → Option String)
    (decimalsOf : String → Option Nat) :
    List String →
    List (String × NativeToken) × List (String × NativeToken) →
    List (String × NativeToken) × List (String × NativeToken)
  | [], maps => maps
  | address :: rest, maps =>
    tokenFold chainId symbolOf decimalsOf rest
      (match fetchToken chainId symbolOf decimalsOf address with
       | some token =>
         (objSet maps.1 (lcStr address) token,
          objSet maps.2 (lcStr token.symbol) token)
       | none => maps)

/-- `TokenProvider.getTokens` (token-provider.ts): lowercase and dedupe
the requested addresses, fetch symbol and decimals for each, drop any
address for which a result failed, return the accessor. -/
def tokenProviderGetTokens (chainId : Nat) (rawAddresses : List String)
    (symbolOf : String → Option String)
    (decimalsOf : String → Option Nat) : TokenAccessorE :=
  let addresses := uniqE (rawAddresses.map lcStr)
  let maps := tokenFold chainId symbolOf decimalsOf addresses ([], [])
  ⟨maps.1, maps.2⟩

lemma lcStr_mem_lower {l : List String} {a : String}
    (ha : a ∈ l.map lcStr) : lcStr a = a := by
  obtain ⟨b, _, rfl⟩ := List.mem_map.mp ha
  exact lcStr_idem b

lemma tokenFold_objGet (chainId : Nat) (symbolOf : String → Option String)
    (decimalsOf : String → Option Nat) (addresses : List String)
    (maps : List (String × NativeToken) × List (String × NativeToken))
    (a : String) (hlc : ∀ x ∈ addresses, lcStr x = x) :
    objGet (tokenFold chainId symbolOf decimalsOf addresses maps).1 a =
      if a ∈ addresses then
        (fetchToken chainId symbolOf decimalsOf a).or (objGet maps.1 a)
      else objGet maps.1 a := by
  induction addresses generalizing maps with
  | nil => simp [tokenFold]
  | cons b rest ih =>
    rw [tokenFold]
    have hlcb : lcStr b = b := hlc b (List.mem_cons_self _ _)
    have hlcr : ∀ x ∈ rest, lcStr x = x :=
      fun x hx => hlc x (List.mem_cons_of_mem _ hx)
    by_cases hab : a = b
    · subst hab
      cases hfetch : fetchToken chainId symbolOf decimalsOf a with
      | none =>
        rw [ih _ hlcr]
        simp [hfetch]
      | some token =>
        rw [ih _ hlcr]
        by_cases har : a ∈ rest
        · simp [har, hfetch]
        · simp only [har, if_false, if_pos (List.mem_cons_self a rest), hfetch]
          rw [hlcb, objGet_objSet_self]
          rfl
    · cases hfetch : fetchToken chainId symbolOf decimalsOf b with
      | none =>
        rw [ih _ hlcr]
        by_cases har : a ∈ rest <;>
          simp [har, List.mem_cons, hab]
      | some token =>
        rw [ih _ hlcr]
        by_cases har : a ∈ rest
        · simp only [har, if_true, List.mem_cons, hab, false_or]
          rw [hlcb, objGet_objSet_ne _ _ _ _ hab]
        · rw [hlcb]
          simp only [har, if_false, List.mem_cons, hab, false_or]
          rw [objGet_objSet_ne _ _ _ _ hab]

/-- Counterexample to C5: the symbol call succeeds and the decimals
call fails, yet the token is dropped from the accessor (the claim says a
token is included whenever at least one of the two calls succeeds). -/
theorem getTokens_symbol_ok_decimals_fail_dropped :
    ((tokenProviderGetTokens 1 ["0xaa"] (fun _ => some "TK")
        (fun _ => none)).getTokenByAddress "0xaa") = none ∧
    ((fun (_ : String) => some "TK") "0xaa").isSome = true :=
  ⟨rfl, rfl⟩

/-- C5 (amended).  `TokenProvider.getTokens` keeps a requested address
exactly when both its symbol and its decimals decode successfully: the
accessor entry equals `fetchToken`, which is `none` as soon as either
call fails, so a token is dropped when either of the two on-chain calls
fails, not only when both fail. -/
theorem getTokens_included_iff_both_succeed
    (chainId : Nat) (rawAddresses : List String)
    (symbolOf : String → Option String) (decimalsOf : String → Option Nat)
    (a : String) (ha : a ∈ uniqE (rawAddresses.map lcStr)) :
    ((tokenProviderGetTokens chainId rawAddresses symbolOf
        decimalsOf).getTokenByAddress a) =
      fetchToken chainId symbolOf decimalsOf a ∧
    (((tokenProviderGetTokens chainId rawAddresses symbolOf
        decimalsOf).getTokenByAddress a).isSome ↔
      (symbolOf a).isSome ∧ (decimalsOf a).isSome) := by
  have hlc : ∀ x ∈ uniqE (rawAddresses.map lcStr), lcStr x = x := by
    intro x hx
    exact lcStr_mem_lower ((mem_uniqE _ _).mp hx)
  have hmain : ((tokenProviderGetTokens chainId rawAddresses symbolOf
      decimalsOf).getTokenByAddress a) =
      fetchToken chainId symbolOf decimalsOf a := by
    rw [tokenProviderGetTokens, TokenAccessorE.getTokenByAddress]
    rw [hlc a ha]
    rw [tokenFold_objGet chainId symbolOf decimalsOf _ _ a hlc]
    rw [if_pos ha]
    cases fetchToken chainId symbolOf decimalsOf a <;> rfl
  refine ⟨hmain, ?_⟩
  rw [hmain, fetchToken]
  cases hs : symbolOf a <;> cases hd : decimalsOf a <;> simp

/-- Witness for C5 (amended) at a concrete input with a mixed-case
requested address. -/
theorem getTokens_included_iff_both_succeed_witness :
    "0xab" ∈ uniqE (["0xAB"].map lcStr) ∧
    (((tokenProviderGetTokens 7 ["0xAB"] (fun _ => some "TK")
        (fun _ => some 6)).getTokenByAddress "0xab") =
      fetchToken 7 (fun _ => some "TK") (fun _ => some 6) "0xab" ∧
    (((tokenProviderGetTokens 7 ["0xAB"] (fun _ => some "TK")
        (fun _ => some 6)).getTokenByAddress "0xab").isSome ↔
      ((fun (_ : String) => some "TK") "0xab").isSome ∧
      ((fun (_ : String) => (some 6 : Option Nat)) "0xab").isSome)) :=
  ⟨by decide, getTokens_included_iff_both_succeed 7 ["0xAB"]
    (fun _ => some "TK") (fun _ => some 6) "0xab" (by decide)⟩

/-- A V3 subgraph pool descriptor (id, token ids, fee tier string,
coarse TVL). -/
structure V3SubgraphPoolE where
  id : String
  feeTier : String
  liquidity : String := ""
  token0Id : String
  token1Id : String
  tvlETH : Rat
  tvlUSD : Rat
  deriving DecidableEq, Repr

/-- A V2 subgraph pool descriptor. -/
structure V2SubgraphPoolE where
  id : String
  token0Id : String
  token1Id : String
  supply : Rat
  reserve : Rat
  reserveUSD : Rat
  deriving DecidableEq, Repr

/-- A Stable subgraph pool descriptor; `wrapper` is the optional
computed vault address. -/
structure StableSubgraphPoolE where
  id : String
  tokensList : List String
  wrapper : Option String
  tvlETH : Rat
  tvlUSD : Rat
  deriving DecidableEq, Repr

/-- V3 fee tiers. -/
inductive FeeAmount where
  | LOWEST
  | LOW
  | MEDIUM
  | HIGH
  deriving DecidableEq, Repr

/-- Modelled from the spec: `unparseFeeAmount` lives in a util file that
is not under src/; it renders a fee tier as its subgraph string (the
spec names the four discrete tiers lowest/low/medium/high). -/
def unparseFeeAmount : FeeAmount → String
  | .HIGH => "HIGH"
  | .MEDIUM => "MEDIUM"
  | .LOW => "LOW"
  | .LOWEST => "LOWEST"

/-- The direct-swap filter of `getV3CandidatePools`: unseen pool whose
token pair is exactly the requested pair, in either order. -/
def v3DirectFilter (poolAddressesSoFar : List String)
    (tokenInAddress tokenOutAddress : String)
    (subgraphPool : V3SubgraphPoolE) : Bool :=
  !poolAddressesSoFar.contains subgraphPool.id &&
  ((subgraphPool.token0Id == tokenInAddress &&
      subgraphPool.token1Id == tokenOutAddress) ||
    (subgraphPool.token1Id == tokenInAddress &&
      subgraphPool.token0Id == tokenOutAddress))

/-- The synthetic optimistic descriptors `getV3CandidatePools` builds
for the four fee tiers; `getPoolAddress` is the deterministic pool
address computation of the V3 pool provider, returning
`(token0, token1, poolAddress)` (addresses). -/
def v3SyntheticPools (getPoolAddress : FeeAmount → String × String × String) :
    List V3SubgraphPoolE :=
  [FeeAmount.HIGH, FeeAmount.MEDIUM, FeeAmount.LOW, FeeAmount.LOWEST].map
    fun feeAmount =>
      let r := getPoolAddress feeAmount
      { id := r.2.2, feeTier := unparseFeeAmount feeAmount,
        liquidity := "10000", token0Id := r.1, token1Id := r.2.1,
        tvlETH := 10000, tvlUSD := 10000 }

/-- The `topByDirectSwapPool` bucket of `getV3CandidatePools`: filter
and cap, and when that leaves nothing while `topNDirectSwaps > 0`,
optimistically inject the synthetic descriptors. -/
def v3DirectSwapPoolsE (subgraphPoolsSorted : List V3SubgraphPoolE)
    (poolAddressesSoFar : List String)
    (tokenInAddress tokenOutAddress : String) (topNDirectSwaps : Nat)
    (getPoolAddress : FeeAmount → String × String × String) :
    List V3SubgraphPoolE :=
  let top2DirectSwapPool :=
    (subgraphPoolsSorted.filter
        (v3DirectFilter poolAddressesSoFar tokenInAddress
          tokenOutAddress)).take topNDirectSwaps
  if top2DirectSwapPool.length = 0 ∧ 0 < topNDirectSwaps then
    v3SyntheticPools getPoolAddress
  else
    top2DirectSwapPool

/-- The single synthetic direct-swap descriptor of
`getV2CandidatePools`. -/
def v2SyntheticPool (getPoolAddress : Unit → String × String × String) :
    V2SubgraphPoolE :=
  let r := getPoolAddress ()
  { id := r.2.2, token0Id := r.1, token1Id := r.2.1,
    supply := 10000, reserve := 10000, reserveUSD := 10000 }

/-- The `topByDirectSwapPool` bucket of `getV2CandidatePools`: whenever
`topNDirectSwaps > 0` the synthetic descriptor is always used,
regardless of the subgraph pool list — which this bucket never consults
("Always add the direct swap pool into the mix regardless of if it
exists in the subgraph pool list"). -/
def v2DirectSwapPoolsE (_subgraphPoolsSorted : List V2SubgraphPoolE)
    (topNDirectSwaps : Nat)
    (getPoolAddress : Unit → String × String × String) :
    List V2SubgraphPoolE :=
  if 0 < topNDirectSwaps then [v2SyntheticPool getPoolAddress] else []

/-- The direct-swap filter of `getStableCandidatePools`. -/
def stableDirectFilter (poolAddressesSoFar : List String)
    (tokenInAddress tokenOutAddress : String)
    (subgraphPool : StableSubgraphPoolE) : Bool :=
  !poolAddressesSoFar.contains subgraphPool.id &&
  subgraphPool.tokensList.contains tokenInAddress &&
  (subgraphPool.tokensList.contains tokenOutAddress ||
    subgraphPool.wrapper == some tokenOutAddress)

/-- The `topByDirectSwapPool` bucket of `getStableCandidatePools`:
filter and cap only — the optimistic-injection branch is commented out
in the source ("Can not guess Balancer pools, so ignore them if we do
not have any direct swaps"). -/
def stableDirectSwapPoolsE (subgraphPoolsSorted : List StableSubgraphPoolE)
    (poolAddressesSoFar : List String)
    (tokenInAddress tokenOutAddress : String) (topNDirectSwaps : Nat) :
    List StableSubgraphPoolE :=
  (subgraphPoolsSorted.filter
      (stableDirectFilter poolAddressesSoFar tokenInAddress
        tokenOutAddress)).take topNDirectSwaps

def wDirectV2Pool : V2SubgraphPoolE :=
  { id := "0xrealpair", token0Id := "0xa", token1Id := "0xb",
    supply := 1, reserve := 500, reserveUSD := 500 }

def wGetV2Addr : Unit → String × String × String :=
  fun _ => ("0xa", "0xb", "0xsynthpair")

/-- Counterexample to C6: for V2 the synthetic direct-swap descriptor
is injected even though the subgraph already contains a direct pool
(the bucket would not be empty), and only one descriptor is injected
rather than one per fee tier. -/
theorem v2_direct_swap_injected_when_nonempty :
    v2DirectSwapPoolsE [wDirectV2Pool] 1 wGetV2Addr =
      [v2SyntheticPool wGetV2Addr] ∧
    v2SyntheticPool wGetV2Addr ≠ wDirectV2Pool ∧
    wDirectV2Pool ∉ v2DirectSwapPoolsE [wDirectV2Pool] 1 wGetV2Addr ∧
    (v2DirectSwapPoolsE [wDirectV2Pool] 1 wGetV2Addr).length = 1 :=
  ⟨rfl, by decide, by decide, rfl⟩

/-- C6 (amended).  Direct-swap bucket behaviour per protocol: V3
injects the four synthetic fee-tier descriptors exactly when the
filtered bucket is empty and `topNDirectSwaps > 0`, and otherwise keeps
the filtered subgraph pools; V2 always uses a single synthetic
descriptor whenever `topNDirectSwaps > 0`, never consulting the
subgraph list; Stable never injects — its bucket only contains subgraph
pools. -/
theorem direct_swap_bucket_injection
    (v3Pools : List V3SubgraphPoolE) (v2Pools : List V2SubgraphPoolE)
    (stPools : List StableSubgraphPoolE) (seen : List String)
    (tokenInAddress tokenOutAddress : String) (n : Nat)
    (g3 : FeeAmount → String × String × String)
    (g2 : Unit → String × String × String) :
    (((v3Pools.filter (v3DirectFilter seen tokenInAddress
          tokenOutAddress)).take n).length = 0 → 0 < n →
      v3DirectSwapPoolsE v3Pools seen tokenInAddress tokenOutAddress n g3 =
        v3SyntheticPools g3 ∧
      (v3SyntheticPools g3).length = 4) ∧
    (((v3Pools.filter (v3DirectFilter seen tokenInAddress
          tokenOutAddress)).take n).length ≠ 0 →
      v3DirectSwapPoolsE v3Pools seen tokenInAddress tokenOutAddress n g3 =
        (v3Pools.filter (v3DirectFilter seen tokenInAddress
          tokenOutAddress)).take n ∧
      ∀ p ∈ v3DirectSwapPoolsE v3Pools seen tokenInAddress tokenOutAddress
          n g3, p ∈ v3Pools) ∧
    (0 < n → v2DirectSwapPoolsE v2Pools n g2 = [v2SyntheticPool g2]) ∧
    (n = 0 → v2DirectSwapPoolsE v2Pools n g2 = []) ∧
    (∀ p ∈ stableDirectSwapPoolsE stPools seen tokenInAddress
        tokenOutAddress n, p ∈ stPools) := by
  refine ⟨?_, ?_, ?_, ?_, ?_⟩
  · intro hempty hn
    refine ⟨?_, rfl⟩
    simp only [v3DirectSwapPoolsE]
    rw [if_pos ⟨hempty, hn⟩]
  · intro hne
    have hcond : ¬(((v3Pools.filter (v3DirectFilter seen tokenInAddress
        tokenOutAddress)).take n).length = 0 ∧ 0 < n) := fun h => hne h.1
    constructor
    · simp only [v3DirectSwapPoolsE]
      rw [if_neg hcond]
    · intro p hp
      simp only [v3DirectSwapPoolsE] at hp
      rw [if_neg hcond] at hp
      exact (List.mem_filter.mp (List.mem_of_mem_take hp)).1
  · intro hn
    rw [v2DirectSwapPoolsE, if_pos hn]
  · intro hn
    subst hn
    rfl
  · intro p hp
    exact (List.mem_filter.mp (List.mem_of_mem_take hp)).1

/-- Witness for C6 (amended): V3 with no direct subgraph pool injects
the four synthetic tiers; V2 with `topNDirectSwaps = 1` uses its single
synthetic descriptor; the stable bucket of a one-pool list stays inside
that list. -/
theorem direct_swap_bucket_injection_witness :
    (([] : List V3SubgraphPoolE).filter (v3DirectFilter [] "0xa" "0xb")
        |>.take 2).length = 0 ∧ 0 < 2 ∧
    (v3DirectSwapPoolsE [] [] "0xa" "0xb" 2
        (fun f => ("0xa", "0xb", unparseFeeAmount f)) =
      v3SyntheticPools (fun f => ("0xa", "0xb", unparseFeeAmount f)) ∧
      (v3SyntheticPools (fun f => ("0xa", "0xb", unparseFeeAmount f))).length
        = 4) ∧
    v2DirectSwapPoolsE [wDirectV2Pool] 1 wGetV2Addr =
      [v2SyntheticPool wGetV2Addr] :=
  ⟨rfl, by decide,
    (direct_swap_bucket_injection [] [wDirectV2Pool] [] [] "0xa" "0xb" 2
      (fun f => ("0xa", "0xb", unparseFeeAmount f)) wGetV2Addr).1 rfl
      (by decide),
    (direct_swap_bucket_injection [] [wDirectV2Pool] [] [] "0xa" "0xb" 1
      (fun f => ("0xa", "0xb", unparseFeeAmount f)) wGetV2Addr).2.2.1
      (by decide)⟩

/-- Stable insert step of a TVL-descending stable sort (lodash
`sortBy(pool => -pool.tvlUSD)`): membership-preserving ordering. -/
def insertByTvl (p : StableSubgraphPoolE) :
    List StableSubgraphPoolE → List StableSubgraphPoolE
  | [] => [p]
  | q :: qs => if q.tvlUSD < p.tvlUSD then p :: q :: qs else q :: insertByTvl p qs

/-- Sort stable subgraph pools by TVL, descending. -/
def sortByTvlDesc (l : List StableSubgraphPoolE) : List StableSubgraphPoolE :=
  l.foldr insertByTvl []

lemma mem_insertByTvl (p a : StableSubgraphPoolE)
    (l : List StableSubgraphPoolE) :
    a ∈ insertByTvl p l ↔ a = p ∨ a ∈ l := by
  induction l with
  | nil => simp [insertByTvl]
  | cons q qs ih =>
    rw [insertByTvl]
    split
    · simp
    · rw [List.mem_cons, ih, List.mem_cons]
      tauto

lemma mem_sortByTvlDesc (a : StableSubgraphPoolE)
    (l : List StableSubgraphPoolE) :
    a ∈ sortByTvlDesc l ↔ a ∈ l := by
  induction l with
  | nil => simp [sortByTvlDesc]
  | cons q qs ih =>
    rw [sortByTvlDesc, List.foldr_cons, mem_insertByTvl, List.mem_cons]
    rw [sortByTvlDesc] at ih
    rw [ih]

/-- Filter of the `topByBaseWithTokenIn` bucket of
`getStableCandidatePools` (line 238): holds a base token and either
holds `tokenIn` or has `wrapper == tokenInAddress`. -/
def stableBaseWithTokenInFilter (tokenInAddress baseTokenAddress : String)
    (subgraphPool : StableSubgraphPoolE) : Bool :=
  subgraphPool.tokensList.contains baseTokenAddress &&
  (subgraphPool.tokensList.contains tokenInAddress ||
    subgraphPool.wrapper == some tokenInAddress)

/-- Filter of the `topByBaseWithTokenOut` bucket (line 257): holds a
base token and either holds `tokenOut` or — as written in the source —
has `wrapper == tokenInAddress` (not `tokenOutAddress`). -/
def stableBaseWithTokenOutFilter
    (tokenInAddress tokenOutAddress baseTokenAddress : String)
    (subgraphPool : StableSubgraphPoolE) : Bool :=
  subgraphPool.tokensList.contains baseTokenAddress &&
  (subgraphPool.tokensList.contains tokenOutAddress ||
    subgraphPool.wrapper == some tokenInAddress)

/-- Filter of the `topByTVLUsingTokenIn` bucket (line 345). -/
def stableTVLUsingTokenInFilter (poolAddressesSoFar : List String)
    (tokenInAddress : String) (subgraphPool : StableSubgraphPoolE) : Bool :=
  !poolAddressesSoFar.contains subgraphPool.id &&
  (subgraphPool.tokensList.contains tokenInAddress ||
    subgraphPool.wrapper == some tokenInAddress)

/-- Filter of the `topByTVLUsingTokenOut` bucket (line 358): holds
`tokenOut` or — as written in the source — has
`wrapper == tokenInAddress`. -/
def stableTVLUsingTokenOutFilter (poolAddressesSoFar : List String)
    (tokenInAddress tokenOutAddress : String)
    (subgraphPool : StableSubgraphPoolE) : Bool :=
  !poolAddressesSoFar.contains subgraphPool.id &&
  (subgraphPool.tokensList.contains tokenOutAddress ||
    subgraphPool.wrapper == some tokenInAddress)

/-- The `topByTVLUsingTokenOut` bucket: filter the TVL-sorted pools and
cap at `topNTokenInOut`. -/
def stableTopByTVLUsingTokenOutE (subgraphPoolsSorted : List StableSubgraphPoolE)
    (poolAddressesSoFar : List String)
    (tokenInAddress tokenOutAddress : String) (topNTokenInOut : Nat) :
    List StableSubgraphPoolE :=
  (subgraphPoolsSorted.filter
      (stableTVLUsingTokenOutFilter poolAddressesSoFar tokenInAddress
        tokenOutAddress)).take topNTokenInOut

/-- The `topByBaseWithTokenOut` bucket: per base token, filter, sort by
TVL and cap at `topNWithEachBaseToken`; then flatten, sort by TVL and
cap at `topNWithBaseToken`. -/
def stableTopByBaseWithTokenOutE (baseTokens : List NativeToken)
    (subgraphPoolsSorted : List StableSubgraphPoolE)
    (tokenInAddress tokenOutAddress : String)
    (topNWithEachBaseToken topNWithBaseToken : Nat) :
    List StableSubgraphPoolE :=
  (sortByTvlDesc (baseTokens.flatMap fun token =>
      (sortByTvlDesc (subgraphPoolsSorted.filter
          (stableBaseWithTokenOutFilter tokenInAddress tokenOutAddress
            (lcStr token.address)))).take
        topNWithEachBaseToken)).take topNWithBaseToken

/-- C8.  In `getStableCandidatePools` the tokenOut-side buckets compare
the pool wrapper against the tokenIn address: (i) every pool selected
into `topByTVLUsingTokenOut` holds `tokenOut` or has `wrapper =
tokenInAddress`; (ii) an unseen pool with `wrapper = tokenInAddress` is
accepted by the tokenOut-side filter even when it does not hold
`tokenOut`; (iii) a pool whose only link to the requested pair is
`wrapper = tokenOutAddress` is rejected by that same filter whenever
`tokenOutAddress ≠ tokenInAddress`; (iv) every pool selected into
`topByBaseWithTokenOut` holds some base token and holds `tokenOut` or
has `wrapper = tokenInAddress`; (v) the tokenIn-side filters
(`topByBaseWithTokenIn`, `topByTVLUsingTokenIn`) use the same
`wrapper = tokenInAddress` comparison. -/
theorem stable_tokenOut_buckets_use_tokenIn_wrapper
    (subgraphPoolsSorted : List StableSubgraphPoolE)
    (baseTokens : List NativeToken) (poolAddressesSoFar : List String)
    (tokenInAddress tokenOutAddress : String)
    (topNTokenInOut topNWithEachBaseToken topNWithBaseToken : Nat)
    (sp : StableSubgraphPoolE) :
    (∀ p ∈ stableTopByTVLUsingTokenOutE subgraphPoolsSorted
        poolAddressesSoFar tokenInAddress tokenOutAddress topNTokenInOut,
      p.tokensList.contains tokenOutAddress = true ∨
      p.wrapper = some tokenInAddress) ∧
    (poolAddressesSoFar.contains sp.id = false →
      sp.wrapper = some tokenInAddress →
      stableTVLUsingTokenOutFilter poolAddressesSoFar tokenInAddress
        tokenOutAddress sp = true) ∧
    (sp.wrapper = some tokenOutAddress → tokenOutAddress ≠ tokenInAddress →
      sp.tokensList.contains tokenOutAddress = false →
      stableTVLUsingTokenOutFilter poolAddressesSoFar tokenInAddress
        tokenOutAddress sp = false) ∧
    (∀ p ∈ stableTopByBaseWithTokenOutE baseTokens subgraphPoolsSorted
        tokenInAddress tokenOutAddress topNWithEachBaseToken
        topNWithBaseToken,
      ∃ base ∈ baseTokens,
        p.tokensList.contains (lcStr base.address) = true ∧
        (p.tokensList.contains tokenOutAddress = true ∨
          p.wrapper = some tokenInAddress)) ∧
    (sp.wrapper = some tokenInAddress →
      (∀ baseTokenAddress,
        sp.tokensList.contains baseTokenAddress = true →
        stableBaseWithTokenInFilter tokenInAddress baseTokenAddress sp =
          true ∧
        stableBaseWithTokenOutFilter tokenInAddress tokenOutAddress
          baseTokenAddress sp = true) ∧
      (poolAddressesSoFar.contains sp.id = false →
        stableTVLUsingTokenInFilter poolAddressesSoFar tokenInAddress sp =
          true)) := by
  refine ⟨?_, ?_, ?_, ?_, ?_⟩
  · intro p hp
    have hf := (List.mem_filter.mp (List.mem_of_mem_take hp)).2
    rw [stableTVLUsingTokenOutFilter, Bool.and_eq_true, Bool.or_eq_true]
      at hf
    rcases hf.2 with h | h
    · exact Or.inl h
    · exact Or.inr (by simpa using h)
  · intro hseen hwrap
    rw [stableTVLUsingTokenOutFilter, hseen, hwrap]
    simp
  · intro hwrap hne hcont
    rw [stableTVLUsingTokenOutFilter, hwrap, hcont]
    simp only [Bool.false_or, Bool.and_eq_false_iff]
    right
    simpa using hne
  · intro p hp
    rw [stableTopByBaseWithTokenOutE] at hp
    have h1 := List.mem_of_mem_take hp
    rw [mem_sortByTvlDesc] at h1
    obtain ⟨base, hbase, h2⟩ := List.mem_flatMap.mp h1
    have h3 := List.mem_of_mem_take h2
    rw [mem_sortByTvlDesc] at h3
    have hf := (List.mem_filter.mp h3).2
    rw [stableBaseWithTokenOutFilter, Bool.and_eq_true, Bool.or_eq_true]
      at hf
    refine ⟨base, hbase, hf.1, ?_⟩
    rcases hf.2 with h | h
    · exact Or.inl h
    · exact Or.inr (by simpa using h)
  · intro hwrap
    constructor
    · intro baseTokenAddress hbase
      constructor
      · rw [stableBaseWithTokenInFilter, hbase, hwrap]
        simp
      · rw [stableBaseWithTokenOutFilter, hbase, hwrap]
        simp
    · intro hseen
      rw [stableTVLUsingTokenInFilter, hseen, hwrap]
      simp

def wStablePool : StableSubgraphPoolE :=
  { id := "0xpool9", tokensList := ["0xbase", "0xdd"],
    wrapper := some "0xin", tvlETH := 5, tvlUSD := 5 }

/-- Witness for C8: a pool that does not hold the tokenOut address but
whose wrapper is the tokenIn address is accepted into the
tokenOut-side buckets. -/
theorem stable_tokenOut_buckets_use_tokenIn_wrapper_witness :
    (∀ p ∈ stableTopByTVLUsingTokenOutE [wStablePool] [] "0xin" "0xout" 2,
      p.tokensList.contains "0xout" = true ∨ p.wrapper = some "0xin") ∧
    (([] : List String).contains wStablePool.id = false →
      wStablePool.wrapper = some "0xin" →
      stableTVLUsingTokenOutFilter [] "0xin" "0xout" wStablePool = true) ∧
    (wStablePool.wrapper = some "0xout" → "0xout" ≠ "0xin" →
      wStablePool.tokensList.contains "0xout" = false →
      stableTVLUsingTokenOutFilter [] "0xin" "0xout" wStablePool = false) ∧
    (∀ p ∈ stableTopByBaseWithTokenOutE [⟨1, "0xBASE", 18, "B"⟩]
        [wStablePool] "0xin" "0xout" 2 2,
      ∃ base ∈ [(⟨1, "0xBASE", 18, "B"⟩ : NativeToken)],
        p.tokensList.contains (lcStr base.address) = true ∧
        (p.tokensList.contains "0xout" = true ∨
          p.wrapper = some "0xin")) ∧
    (wStablePool.wrapper = some "0xin" →
      (∀ baseTokenAddress,
        wStablePool.tokensList.contains baseTokenAddress = true →
        stableBaseWithTokenInFilter "0xin" baseTokenAddress wStablePool =
          true ∧
        stableBaseWithTokenOutFilter "0xin" "0xout" baseTokenAddress
          wStablePool = true) ∧
      (([] : List String).contains wStablePool.id = false →
        stableTVLUsingTokenInFilter [] "0xin" wStablePool = true)) :=
  stable_tokenOut_buckets_use_tokenIn_wrapper [wStablePool]
    [⟨1, "0xBASE", 18, "B"⟩] [] "0xin" "0xout" 2 2 2 wStablePool

/-- Chain ids recognised by the gas-cost tables. -/
inductive ChainIdE where
  | MAINNET
  | SEPOLIA
  | OPTIMISM
  | ARBITRUM_ONE
  deriving DecidableEq, Repr

/-- `BASE_SWAP_COST` of stable-gas-costs.ts. -/
def BASE_SWAP_COST_STABLE : ChainIdE → Int
  | .ARBITRUM_ONE => 100000
  | .MAINNET => 70000
  | .SEPOLIA => 70000
  | .OPTIMISM => 70000

/-- `COST_PER_HOP` of stable-gas-costs.ts. -/
def COST_PER_HOP_STABLE : ChainIdE → Int
  | .ARBITRUM_ONE => 35000
  | .MAINNET => 35000
  | .SEPOLIA => 35000
  | .OPTIMISM => 35000

/-- `BASE_SWAP_COST` of stable-wrapper-gas-costs.ts. -/
def BASE_SWAP_COST_STABLE_WRAPPER : ChainIdE → Int
  | .ARBITRUM_ONE => 5000
  | .MAINNET => 2000
  | .SEPOLIA => 2000
  | .OPTIMISM => 2000

/-- `COST_PER_HOP` of stable-wrapper-gas-costs.ts. -/
def COST_PER_HOP_STABLE_WRAPPER : ChainIdE → Int
  | .ARBITRUM_ONE => 50000
  | .MAINNET => 50000
  | .SEPOLIA => 50000
  | .OPTIMISM => 50000

def AAVE_MAINNET : NativeToken :=
  ⟨1, "0x7Fc66500c84A76Ad7e9c93437bFc5Ac33E2DDaE9", 18, "AAVE"⟩

def LIDO_MAINNET : NativeToken :=
  ⟨1, "0x5A98FcBEA516Cf06857215779Fd812CA3beF1B32", 18, "LDO"⟩

/-- `TOKEN_OVERHEAD` of stable-gas-costs.ts, as a function of the
route endpoints it reads (`route.input`, `route.output`): on mainnet,
150k extra for AAVE and 150k extra for LDO. -/
def TOKEN_OVERHEAD (id : ChainIdE) (input output : NativeToken) : Int :=
  if id = ChainIdE.MAINNET then
    (if input.equalsTok AAVE_MAINNET || output.equalsTok AAVE_MAINNET then
       (150000 : Int) else 0) +
    (if input.equalsTok LIDO_MAINNET || output.equalsTok LIDO_MAINNET then
       (150000 : Int) else 0)
  else 0

/-- Modelled from the spec: `partitionMixedRouteByProtocol` comes from
hermes-swap-router-sdk, which is not under src/; the spec describes it
as partitioning the route into maximal same-protocol sections. -/
def partitionMixedRouteByProtocolE : List TPool → List (List TPool)
  | [] => []
  | p :: ps =>
    match partitionMixedRouteByProtocolE ps with
    | [] => [[p]]
    | [] :: rest => [p] :: rest
    | (q :: qs) :: rest =>
      if q.variant = p.variant then (p :: q :: qs) :: rest
      else [p] :: (q :: qs) :: rest

/-- The contribution of one same-protocol section in
`MixedRouteHeuristicGasModelFactory.estimateGas`: base swap cost of the
protocol plus its per-hop cost times the section length (`Pool`,
`ComposableStablePool` and `ComposableStablePoolWrapper` branches; no
other branch adds anything). -/
def mixedSectionCost (v3Base v3Hop : ChainIdE → Int) (chainId : ChainIdE)
    (sec : List TPool) : Int :=
  if sec.all fun pool => pool.variant == PoolVariant.v3 then
    v3Base chainId + v3Hop chainId * sec.length
  else if sec.all fun pool => pool.variant == PoolVariant.stable then
    BASE_SWAP_COST_STABLE chainId + COST_PER_HOP_STABLE chainId * sec.length
  else if sec.all fun pool => pool.variant == PoolVariant.stableWrapper then
    BASE_SWAP_COST_STABLE_WRAPPER chainId +
      COST_PER_HOP_STABLE_WRAPPER chainId * sec.length
  else 0

/-- `MixedRouteHeuristicGasModelFactory.estimateGas`
(stable-wrapper-gas-costs.ts, second part): the returned `baseGasUse`.
`v3Base`, `v3Hop`, `costPerInitTick` and `costPerUninitTick` stand for
the `BASE_SWAP_COST`, `COST_PER_HOP`, `COST_PER_INIT_TICK` and
`COST_PER_UNINIT_TICK` constants of v3-gas-costs.ts, a file that is not
under src/.  Note `Math.max(1, _.sum(initializedTicksCrossedList))`. -/
def estimateGasMixedE (v3Base v3Hop costPerInitTick : ChainIdE → Int)
    (costPerUninitTick : Int) (chainId : ChainIdE) (route : List TPool)
    (initializedTicksCrossedList : List Int)
    (additionalGasOverhead : Option Int) : Int :=
  let totalInitializedTicksCrossed : Int :=
    max 1 initializedTicksCrossedList.sum
  let res := partitionMixedRouteByProtocolE route
  let baseGasUse := res.foldl
    (fun acc sec => acc + mixedSectionCost v3Base v3Hop chainId sec) 0
  let tickGasUse := costPerInitTick chainId * totalInitializedTicksCrossed
  let uninitializedTickGasUse := costPerUninitTick * 0
  let baseGasUse2 := baseGasUse + tickGasUse + uninitializedTickGasUse
  match additionalGasOverhead with
  | some overhead => baseGasUse2 + overhead
  | none => baseGasUse2

/-- Modelled from the spec: the gas value claim C7 describes — the sum
of the per-section costs, plus `COST_PER_INIT_TICK` times the total
initialized ticks crossed with no tick term when zero ticks are
crossed, plus the configured overhead, with stable sections
additionally carrying the `TOKEN_OVERHEAD` of the route endpoints. -/
def claimedMixedGas (v3Base v3Hop costPerInitTick : ChainIdE → Int)
    (chainId : ChainIdE) (route : List TPool)
    (routeInput routeOutput : NativeToken)
    (initializedTicksCrossedList : List Int)
    (additionalGasOverhead : Option Int) : Int :=
  ((partitionMixedRouteByProtocolE route).map fun sec =>
    mixedSectionCost v3Base v3Hop chainId sec +
    (if sec.all fun pool => pool.variant == PoolVariant.stable then
       TOKEN_OVERHEAD chainId routeInput routeOutput
     else 0)).sum +
  costPerInitTick chainId * initializedTicksCrossedList.sum +
  additionalGasOverhead.getD 0

/-- Modelled from the spec: representative values for the V3 gas
constants of v3-gas-costs.ts (not under src/); the upstream constants
are 2000 base, 80000 per hop and 31000 per initialized tick, and only
`costPerInitTick` being nonzero matters to the counterexample. -/
def V3_BASE_SWAP_COST_M : ChainIdE → Int := fun _ => 2000

def V3_COST_PER_HOP_M : ChainIdE → Int := fun _ => 80000

def V3_COST_PER_INIT_TICK_M : ChainIdE → Int := fun _ => 31000

/-- Counterexample to C7, at two concrete routes.  First: a v3+stable
mixed route on Sepolia with zero initialized ticks crossed — the code
still adds one tick of `COST_PER_INIT_TICK` (`Math.max(1, …)`), the
claimed formula adds none.  Second: a stable section on mainnet with
AAVE as route input — the claimed formula adds the 150k
`TOKEN_OVERHEAD`, the code adds nothing of the sort. -/
theorem mixed_gas_estimate_claim_false :
    estimateGasMixedE V3_BASE_SWAP_COST_M V3_COST_PER_HOP_M
        V3_COST_PER_INIT_TICK_M 0 ChainIdE.SEPOLIA [wPoolAB, wPoolBC] []
        none ≠
      claimedMixedGas V3_BASE_SWAP_COST_M V3_COST_PER_HOP_M
        V3_COST_PER_INIT_TICK_M ChainIdE.SEPOLIA [wPoolAB, wPoolBC]
        wTokA wTokC [] none ∧
    estimateGasMixedE V3_BASE_SWAP_COST_M V3_COST_PER_HOP_M
        V3_COST_PER_INIT_TICK_M 0 ChainIdE.MAINNET [wPoolBC] [2] none ≠
      claimedMixedGas V3_BASE_SWAP_COST_M V3_COST_PER_HOP_M
        V3_COST_PER_INIT_TICK_M ChainIdE.MAINNET [wPoolBC]
        AAVE_MAINNET wTokC [2] none := by
  constructor <;> decide

lemma foldl_add_sectionCost (v3Base v3Hop : ChainIdE → Int)
    (chainId : ChainIdE) (l : List (List TPool)) (init : Int) :
    l.foldl (fun acc sec => acc + mixedSectionCost v3Base v3Hop chainId sec)
        init =
      init + (l.map (mixedSectionCost v3Base v3Hop chainId)).sum := by
  induction l generalizing init with
  | nil => simp
  | cons sec rest ih =>
    rw [List.foldl_cons, ih, List.map_cons, List.sum_cons]
    ring

/-- The amended mixed gas value: per-section costs, plus
`COST_PER_INIT_TICK` times `max 1 totalTicks`, plus the configured
overhead; no token overhead term. -/
def amendedMixedGas (v3Base v3Hop costPerInitTick : ChainIdE → Int)
    (chainId : ChainIdE) (route : List TPool)
    (initializedTicksCrossedList : List Int)
    (additionalGasOverhead : Option Int) : Int :=
  ((partitionMixedRouteByProtocolE route).map
      (mixedSectionCost v3Base v3Hop chainId)).sum +
  costPerInitTick chainId * max 1 initializedTicksCrossedList.sum +
  additionalGasOverhead.getD 0

/-- C7 (amended).  The mixed heuristic gas estimate equals the sum over
maximal same-protocol sections of that protocol base swap cost plus
per-hop cost times section length, plus `COST_PER_INIT_TICK` times
`max 1 totalInitializedTicksCrossed` — so one tick is charged even when
zero ticks are crossed — plus any configured `additionalGasOverhead`;
no `TOKEN_OVERHEAD` term appears for stable sections. -/
theorem mixed_gas_estimate_amended (v3Base v3Hop costPerInitTick : ChainIdE → Int)
    (costPerUninitTick : Int) (chainId : ChainIdE) (route : List TPool)
    (initializedTicksCrossedList : List Int)
    (additionalGasOverhead : Option Int) :
    estimateGasMixedE v3Base v3Hop costPerInitTick costPerUninitTick chainId
        route initializedTicksCrossedList additionalGasOverhead =
      amendedMixedGas v3Base v3Hop costPerInitTick chainId route
        initializedTicksCrossedList additionalGasOverhead := by
  simp only [estimateGasMixedE, amendedMixedGas, foldl_add_sectionCost]
  cases additionalGasOverhead <;> simp

/-- Substring containment on character lists. -/
def containsSubList : List Char → List Char → Bool
  | [], sub => sub.isEmpty
  | c :: rest, sub => sub.isPrefixOf (c :: rest) || containsSubList rest sub

/-- lodash `_.includes(message, needle)` on strings. -/
def includesSubstr (s sub : String) : Bool := containsSubList s.data sub.data

/-- A stable-subgraph GraphQL query; the block pin is interpolated into
the query text when the query is built. -/
structure SubgraphQueryE where
  pinnedBlock : Option Int
  deriving DecidableEq, Repr

/-- `const query = gql\`…\`` of `StableSubgraphProvider.getPools`: built
once, before the retry loop, from the current `blockNumber`. -/
def buildStableQuery (blockNumber : Option Int) : SubgraphQueryE :=
  ⟨blockNumber⟩

/-- The `onRetry` handler of `StableSubgraphProvider.getPools`: when
rollback is enabled, a block is pinned and the error message contains
"indexed up to", lower the `blockNumber` variable by 10; otherwise
leave it unchanged. -/
def onRetryRollback (rollback : Bool) (blockNumber : Option Int)
    (errMessage : String) : Option Int :=
  match blockNumber with
  | some b =>
    if rollback && includesSubstr errMessage "indexed up to" then
      some (b - 10)
    else some b
  | none => none

/-- The attempt sequence of the retry loop: each attempt sends the
(fixed) query and carries the current value of the `blockNumber`
variable; a failure with the given message runs `onRetry` before the
next attempt. -/
def retryAttemptsGo (rollback : Bool) (query : SubgraphQueryE) :
    Option Int → List String → List (SubgraphQueryE × Option Int)
  | blockVar, [] => [(query, blockVar)]
  | blockVar, err :: rest =>
    (query, blockVar) ::
      retryAttemptsGo rollback query (onRetryRollback rollback blockVar err)
        rest

/-- `StableSubgraphProvider.getPools` retry behaviour, given the error
messages of the failed attempts: the GraphQL query is interpolated once
from the initial block number, before `retry(...)` runs; `onRetry` then
only reassigns the local variable. -/
def stableGetPoolsAttempts (rollback : Bool) (initialBlock : Option Int)
    (failures : List String) : List (SubgraphQueryE × Option Int) :=
  retryAttemptsGo rollback (buildStableQuery initialBlock) initialBlock
    failures

/-- C9.  At the failing input — rollback enabled, query pinned to block
100, first attempt failing with an "indexed up to" message — the
`blockNumber` variable is rolled back to 90 exactly as the claim says,
but the retried request still sends the query pinned to block 100,
because the query string was built before the retry loop and is never
rebuilt.  The variable is also left unchanged when no block is pinned
or when the message does not contain "indexed up to". -/
theorem stable_subgraph_retry_block_frozen :
    stableGetPoolsAttempts true (some 100)
        ["subgraph error: Failed to decode, indexed up to block 90"] =
      [(buildStableQuery (some 100), some 100),
       (buildStableQuery (some 100), some 90)] ∧
    onRetryRollback true (some 100)
        "subgraph error: Failed to decode, indexed up to block 90" =
      some 90 ∧
    onRetryRollback true none
        "subgraph error: Failed to decode, indexed up to block 90" =
      none ∧
    onRetryRollback true (some 100) "connection reset" = some 100 := by
  refine ⟨?_, ?_, ?_, ?_⟩ <;> decide

/-- `CACHE_KEY` of CachingTokenProviderWithFallback. -/
def CACHE_KEY (chainId : Nat) (address : String) : String :=
  "token-" ++ toString chainId ++ "-" ++ address

def USDC_MAINNET : NativeToken :=
  ⟨1, "0xA0b86991c6218b36c1d19D4a2e9Eb0cE3606eB48", 6, "USDC"⟩

def USDT_MAINNET : NativeToken :=
  ⟨1, "0xdAC17F958D2ee523a2206206994597C13D831ec7", 6, "USDT"⟩

def WBTC_MAINNET : NativeToken :=
  ⟨1, "0x2260FAC5E5542a773Aa44fBCfeDf7C193bc2C599", 8, "WBTC"⟩

def DAI_MAINNET : NativeToken :=
  ⟨1, "0x6B175474E89094C44Da98b954EedeAC495271d0F", 18, "DAI"⟩

def WETH_MAINNET : NativeToken :=
  ⟨1, "0xC02aaA39b223FE8D0A0e5C4F27eAD9083C756Cc2", 18, "WETH"⟩

def RING_MAINNET : NativeToken :=
  ⟨1, "0x9469D013805bFfB7D3DEBe5E7839237e535ec483", 18, "RING"⟩

/-- `CACHE_SEED_TOKENS[MAINNET]`: the seeded well-known tokens. -/
def CACHE_SEED_TOKENS_MAINNET : List NativeToken :=
  [WETH_MAINNET, USDC_MAINNET, USDT_MAINNET, WBTC_MAINNET, DAI_MAINNET,
   RING_MAINNET]

/-- State of the first loop of
`CachingTokenProviderWithFallback.getTokens`. -/
structure CachingState1 where
  am : List (String × NativeToken)
  sm : List (String × NativeToken)
  toFind : List String

/-- First loop: addresses found in the (already seeded) cache go into
`addressToToken` under the address and into `symbolToToken` under the
raw `token.symbol!` (the source does not lowercase this key); cache
misses are queued for the primary provider. -/
def cachingFold1 (chainId : Nat) (cache : List (String × NativeToken)) :
    List String → CachingState1 → CachingState1
  | [], st => st
  | address :: rest, st =>
    match objGet cache (CACHE_KEY chainId address) with
    | some token =>
      cachingFold1 chainId cache rest
        ⟨objSet st.am address token, objSet st.sm token.symbol token,
         st.toFind⟩
    | none =>
      cachingFold1 chainId cache rest
        ⟨st.am, st.sm, st.toFind ++ [address]⟩

/-- State of the primary / fallback loops. -/
structure CachingState2 where
  am : List (String × NativeToken)
  sm : List (String × NativeToken)
  cache : List (String × NativeToken)
  toSecondary : List String

/-- Primary-provider loop: found tokens go into both maps (again with
the raw `token.symbol!` as the symbol key) and into the cache; misses
are queued for the fallback provider. -/
def cachingFold2 (chainId : Nat) (primary : String → Option NativeToken) :
    List String → CachingState2 → CachingState2
  | [], st => st
  | address :: rest, st =>
    match primary address with
    | some token =>
      cachingFold2 chainId primary rest
        ⟨objSet st.am address token, objSet st.sm token.symbol token,
         objSet st.cache (CACHE_KEY chainId (lcStr address)) token,
         st.toSecondary⟩
    | none =>
      cachingFold2 chainId primary rest
        ⟨st.am, st.sm, st.cache, st.toSecondary ++ [address]⟩

/-- Fallback-provider loop (no further queue). -/
def cachingFold3 (chainId : Nat) (fallbackFn : String → Option NativeToken) :
    List String → CachingState2 → CachingState2
  | [], st => st
  | address :: rest, st =>
    match fallbackFn address with
    | some token =>
      cachingFold3 chainId fallbackFn rest
        ⟨objSet st.am address token, objSet st.sm token.symbol token,
         objSet st.cache (CACHE_KEY chainId (lcStr address)) token,
         st.toSecondary⟩
    | none => cachingFold3 chainId fallbackFn rest st

/-- Seed the cache with the chain seed tokens, keyed by lowercased
address. -/
def seedCache (chainId : Nat) (seedTokens : List NativeToken)
    (cache0 : List (String × NativeToken)) : List (String × NativeToken) :=
  seedTokens.foldl
    (fun c t => objSet c (CACHE_KEY chainId (lcStr t.address)) t) cache0

/-- `CachingTokenProviderWithFallback.getTokens`: seed the cache,
lowercase and dedupe the requested addresses, resolve through cache,
then primary, then optional fallback provider, and return the accessor
(whose `getTokenBySymbol` lowercases the queried symbol before looking
it up in the raw-symbol-keyed map). -/
def cachingGetTokens (chainId : Nat) (seedTokens : List NativeToken)
    (cache0 : List (String × NativeToken))
    (primary : String → Option NativeToken)
    (fallback : Option (String → Option NativeToken))
    (rawAddresses : List String) : TokenAccessorE :=
  let cache1 := seedCache chainId seedTokens cache0
  let addresses := uniqE (rawAddresses.map lcStr)
  let st1 := cachingFold1 chainId cache1 addresses ⟨[], [], []⟩
  let st2 :=
    if 0 < st1.toFind.length then
      cachingFold2 chainId primary st1.toFind ⟨st1.am, st1.sm, cache1, []⟩
    else ⟨st1.am, st1.sm, cache1, []⟩
  let st3 :=
    match fallback with
    | some fb =>
      if 0 < st2.toSecondary.length then
        cachingFold3 chainId fb st2.toSecondary st2
      else st2
    | none => st2
  ⟨st3.am, st3.sm⟩

/-- Every symbol-map entry is keyed by the raw symbol of its token. -/
def symKeyInv (sm : List (String × NativeToken)) : Prop :=
  ∀ kv ∈ sm, kv.1 = kv.2.symbol

lemma objSet_symKeyInv {sm : List (String × NativeToken)}
    (h : symKeyInv sm) (v : NativeToken) :
    symKeyInv (objSet sm v.symbol v) := by
  induction sm with
  | nil =>
    intro kv hkv
    simp only [objSet, List.mem_singleton] at hkv
    subst hkv
    rfl
  | cons kv0 rest ih =>
    intro kv hkv
    rw [objSet] at hkv
    split at hkv
    · rcases List.mem_cons.mp hkv with rfl | h2
      · rfl
      · exact h kv (List.mem_cons_of_mem _ h2)
    · rcases List.mem_cons.mp hkv with rfl | h2
      · exact h kv (List.mem_cons_self _ _)
      · exact ih (fun x hx => h x (List.mem_cons_of_mem _ hx)) kv h2

lemma cachingFold1_symKeyInv (chainId : Nat)
    (cache : List (String × NativeToken)) (lst : List String)
    (st : CachingState1) (h : symKeyInv st.sm) :
    symKeyInv (cachingFold1 chainId cache lst st).sm := by
  induction lst generalizing st with
  | nil => exact h
  | cons address rest ih =>
    rw [cachingFold1]
    cases objGet cache (CACHE_KEY chainId address) with
    | some token => exact ih _ (objSet_symKeyInv h token)
    | none => exact ih _ h

lemma cachingFold2_symKeyInv (chainId : Nat)
    (primary : String → Option NativeToken) (lst : List String)
    (st : CachingState2) (h : symKeyInv st.sm) :
    symKeyInv (cachingFold2 chainId primary lst st).sm := by
  induction lst generalizing st with
  | nil => exact h
  | cons address rest ih =>
    rw [cachingFold2]
    cases primary address with
    | some token => exact ih _ (objSet_symKeyInv h token)
    | none => exact ih _ h

lemma cachingFold3_symKeyInv (chainId : Nat)
    (fb : String → Option NativeToken) (lst : List String)
    (st : CachingState2) (h : symKeyInv st.sm) :
    symKeyInv (cachingFold3 chainId fb lst st).sm := by
  induction lst generalizing st with
  | nil => exact h
  | cons address rest ih =>
    rw [cachingFold3]
    cases fb address with
    | some token => exact ih _ (objSet_symKeyInv h token)
    | none => exact ih _ h

lemma objGet_eq_some {l : List (String × NativeToken)} {k : String}
    {v : NativeToken} (h : objGet l k = some v) :
    ∃ kv ∈ l, kv.1 = k ∧ kv.2 = v := by
  rw [objGet] at h
  cases hf : l.find? (fun kv => kv.1 == k) with
  | none => rw [hf] at h; simp at h
  | some kv =>
    rw [hf] at h
    have hmem := List.mem_of_find?_eq_some hf
    have hkey := List.find?_some hf
    refine ⟨kv, hmem, by simpa using hkey, by simpa using h⟩

lemma cachingGetTokens_symKeyInv (chainId : Nat)
    (seedTokens : List NativeToken) (cache0 : List (String × NativeToken))
    (primary : String → Option NativeToken)
    (fallback : Option (String → Option NativeToken))
    (rawAddresses : List String) :
    symKeyInv (cachingGetTokens chainId seedTokens cache0 primary fallback
      rawAddresses).symbolToToken := by
  simp only [cachingGetTokens]
  have h1 := cachingFold1_symKeyInv chainId
    (seedCache chainId seedTokens cache0)
    (uniqE (rawAddresses.map lcStr)) ⟨[], [], []⟩ (by intro kv hkv; simp at hkv)
  set st1 := cachingFold1 chainId (seedCache chainId seedTokens cache0)
    (uniqE (rawAddresses.map lcStr)) ⟨[], [], []⟩ with hst1
  have h2 : symKeyInv (if 0 < st1.toFind.length then
      cachingFold2 chainId primary st1.toFind
        ⟨st1.am, st1.sm, seedCache chainId seedTokens cache0, []⟩
    else ⟨st1.am, st1.sm, seedCache chainId seedTokens cache0, []⟩).sm := by
    split
    · exact cachingFold2_symKeyInv chainId primary st1.toFind _ h1
    · exact h1
  set st2 := (if 0 < st1.toFind.length then
      cachingFold2 chainId primary st1.toFind
        ⟨st1.am, st1.sm, seedCache chainId seedTokens cache0, []⟩
    else ⟨st1.am, st1.sm, seedCache chainId seedTokens cache0, []⟩) with hst2
  cases fallback with
  | none => exact h2
  | some fb =>
    simp only []
    split
    · exact cachingFold3_symKeyInv chainId fb st2.toSecondary st2 h2
    · exact h2

lemma fold1_am_untouched (chainId : Nat)
    (cache : List (String × NativeToken)) (lst : List String)
    (st : CachingState1) (a : String) (ha : a ∉ lst) :
    objGet (cachingFold1 chainId cache lst st).am a = objGet st.am a := by
  induction lst generalizing st with
  | nil => rfl
  | cons address rest ih =>
    have hne : a ≠ address := fun h => ha (h ▸ List.mem_cons_self _ _)
    have harest : a ∉ rest := fun h => ha (List.mem_cons_of_mem _ h)
    rw [cachingFold1]
    cases objGet cache (CACHE_KEY chainId address) with
    | some token =>
      rw [ih _ harest]
      exact objGet_objSet_ne _ _ _ _ hne
    | none => exact ih _ harest

lemma fold1_am_hit (chainId : Nat) (cache : List (String × NativeToken))
    (lst : List String) (st : CachingState1) (a : String)
    (token : NativeToken) (ha : a ∈ lst)
    (hcache : objGet cache (CACHE_KEY chainId a) = some token) :
    objGet (cachingFold1 chainId cache lst st).am a = some token := by
  induction lst generalizing st with
  | nil => simp at ha
  | cons address rest ih =>
    rw [cachingFold1]
    by_cases har : a ∈ rest
    · cases objGet cache (CACHE_KEY chainId address) with
      | some tok2 => exact ih _ har
      | none => exact ih _ har
    · have hab : a = address := by
        rcases List.mem_cons.mp ha with h | h
        · exact h
        · exact absurd h har
      subst hab
      rw [hcache]
      rw [fold1_am_untouched chainId cache rest _ a har]
      exact objGet_objSet_self _ _ _

lemma fold1_toFind_sub (chainId : Nat)
    (cache : List (String × NativeToken)) (lst : List String)
    (st : CachingState1) (x : String)
    (hx : x ∈ (cachingFold1 chainId cache lst st).toFind) :
    x ∈ st.toFind ∨
      (x ∈ lst ∧ objGet cache (CACHE_KEY chainId x) = none) := by
  induction lst generalizing st with
  | nil => exact Or.inl hx
  | cons address rest ih =>
    rw [cachingFold1] at hx
    cases hc : objGet cache (CACHE_KEY chainId address) with
    | some token =>
      rw [hc] at hx
      rcases ih _ hx with h | h
      · exact Or.inl h
      · exact Or.inr ⟨List.mem_cons_of_mem _ h.1, h.2⟩
    | none =>
      rw [hc] at hx
      rcases ih _ hx with h | h
      · rcases List.mem_append.mp h with h2 | h2
        · exact Or.inl h2
        · rw [List.mem_singleton] at h2
          subst h2
          exact Or.inr ⟨List.mem_cons_self _ _, hc⟩
      · exact Or.inr ⟨List.mem_cons_of_mem _ h.1, h.2⟩

lemma fold2_am_untouched2 (chainId : Nat)
    (primary : String → Option NativeToken) (lst : List String)
    (st : CachingState2) (a : String) (ha : a ∉ lst) :
    objGet (cachingFold2 chainId primary lst st).am a = objGet st.am a := by
  induction lst generalizing st with
  | nil => rfl
  | cons address rest ih =>
    have hne : a ≠ address := fun h => ha (h ▸ List.mem_cons_self _ _)
    have harest : a ∉ rest := fun h => ha (List.mem_cons_of_mem _ h)
    rw [cachingFold2]
    cases primary address with
    | some token =>
      rw [ih _ harest]
      exact objGet_objSet_ne _ _ _ _ hne
    | none => exact ih _ harest

lemma fold2_toSec_sub (chainId : Nat)
    (primary : String → Option NativeToken) (lst : List String)
    (st : CachingState2) (x : String)
    (hx : x ∈ (cachingFold2 chainId primary lst st).toSecondary) :
    x ∈ st.toSecondary ∨ x ∈ lst := by
  induction lst generalizing st with
  | nil => exact Or.inl hx
  | cons address rest ih =>
    rw [cachingFold2] at hx
    cases hp : primary address with
    | some token =>
      rw [hp] at hx
      rcases ih _ hx with h | h
      · exact Or.inl h
      · exact Or.inr (List.mem_cons_of_mem _ h)
    | none =>
      rw [hp] at hx
      rcases ih _ hx with h | h
      · rcases List.mem_append.mp h with h2 | h2
        · exact Or.inl h2
        · rw [List.mem_singleton] at h2
          exact Or.inr (h2 ▸ List.mem_cons_self _ _)
      · exact Or.inr (List.mem_cons_of_mem _ h)

lemma fold3_am_untouched (chainId : Nat)
    (fb : String → Option NativeToken) (lst : List String)
    (st : CachingState2) (a : String) (ha : a ∉ lst) :
    objGet (cachingFold3 chainId fb lst st).am a = objGet st.am a := by
  induction lst generalizing st with
  | nil => rfl
  | cons address rest ih =>
    have hne : a ≠ address := fun h => ha (h ▸ List.mem_cons_self _ _)
    have harest : a ∉ rest := fun h => ha (List.mem_cons_of_mem _ h)
    rw [cachingFold3]
    cases fb address with
    | some token =>
      rw [ih _ harest]
      exact objGet_objSet_ne _ _ _ _ hne
    | none => exact ih _ harest

/-- C10.  For the accessor returned by
`CachingTokenProviderWithFallback.getTokens`: (i) no token whose stored
symbol contains an uppercase character can ever be returned by
`getTokenBySymbol`, for any query string — the internal map is keyed by
the raw symbol while the lookup lowercases the query; (ii) when every
token in the symbol map has such a symbol (as all seeded well-known
tokens like USDC and WETH do), `getTokenBySymbol` returns `undefined`
for every query; (iii) `getTokenByAddress` still returns the token for
every requested address resolved through the seeded cache. -/
theorem cachingTokenProvider_symbol_lookup_mismatch
    (chainId : Nat) (seedTokens : List NativeToken)
    (cache0 : List (String × NativeToken))
    (primary : String → Option NativeToken)
    (fallback : Option (String → Option NativeToken))
    (rawAddresses : List String) :
    (∀ (t : NativeToken) (query : String), hasUpper t.symbol = true →
      (cachingGetTokens chainId seedTokens cache0 primary fallback
        rawAddresses).getTokenBySymbol query ≠ some t) ∧
    (∀ query : String,
      (∀ kv ∈ (cachingGetTokens chainId seedTokens cache0 primary fallback
          rawAddresses).symbolToToken, hasUpper kv.2.symbol = true) →
      (cachingGetTokens chainId seedTokens cache0 primary fallback
        rawAddresses).getTokenBySymbol query = none) ∧
    (∀ a ∈ uniqE (rawAddresses.map lcStr), ∀ token : NativeToken,
      objGet (seedCache chainId seedTokens cache0) (CACHE_KEY chainId a) =
        some token →
      (cachingGetTokens chainId seedTokens cache0 primary fallback
        rawAddresses).getTokenByAddress a = some token) := by
  have hinv := cachingGetTokens_symKeyInv chainId seedTokens cache0 primary
    fallback rawAddresses
  refine ⟨?_, ?_, ?_⟩
  · intro t query ht heq
    rw [TokenAccessorE.getTokenBySymbol] at heq
    obtain ⟨kv, hmem, hk, hv⟩ := objGet_eq_some heq
    have hsym := hinv kv hmem
    rw [hv] at hsym
    rw [hsym] at hk
    rw [hk] at ht
    rw [hasUpper_lcStr] at ht
    exact Bool.false_ne_true ht
  · intro query hall
    rw [TokenAccessorE.getTokenBySymbol]
    cases heq : objGet (cachingGetTokens chainId seedTokens cache0 primary
        fallback rawAddresses).symbolToToken (lcStr query) with
    | none => rfl
    | some t =>
      obtain ⟨kv, hmem, hk, hv⟩ := objGet_eq_some heq
      have hsym := hinv kv hmem
      have hup := hall kv hmem
      rw [← hsym, hk, hasUpper_lcStr] at hup
      exact absurd hup Bool.false_ne_true
  · intro a ha token hcache
    have hlc : lcStr a = a := lcStr_mem_lower ((mem_uniqE _ _).mp ha)
    rw [TokenAccessorE.getTokenByAddress, hlc]
    show objGet (cachingGetTokens chainId seedTokens cache0 primary fallback
      rawAddresses).addressToToken a = some token
    simp only [cachingGetTokens]
    set cache1 := seedCache chainId seedTokens cache0 with hcache1
    set addresses := uniqE (rawAddresses.map lcStr) with haddrs
    set st1 := cachingFold1 chainId cache1 addresses ⟨[], [], []⟩ with hst1
    have ham1 : objGet st1.am a = some token :=
      fold1_am_hit chainId cache1 addresses _ a token ha hcache
    have hnotFind : a ∉ st1.toFind := by
      intro hin
      rcases fold1_toFind_sub chainId cache1 addresses _ a hin with h | h
      · simp at h
      · rw [hcache] at h
        exact absurd h.2 (by simp)
    set st2 := (if 0 < st1.toFind.length then
        cachingFold2 chainId primary st1.toFind ⟨st1.am, st1.sm, cache1, []⟩
      else ⟨st1.am, st1.sm, cache1, []⟩) with hst2
    have ham2 : objGet st2.am a = some token := by
      rw [hst2]
      split
      · rw [fold2_am_untouched2 chainId primary st1.toFind _ a hnotFind]
        exact ham1
      · exact ham1
    have hnotSec : a ∉ st2.toSecondary := by
      intro hin
      rw [hst2] at hin
      by_cases hlen : 0 < st1.toFind.length
      · rw [if_pos hlen] at hin
        rcases fold2_toSec_sub chainId primary st1.toFind _ a hin with h | h
        · simp at h
        · exact hnotFind h
      · rw [if_neg hlen] at hin
        simp at hin
    cases fallback with
    | none => exact ham2
    | some fb =>
      simp only []
      split
      · rw [fold3_am_untouched chainId fb st2.toSecondary _ a hnotSec]
        exact ham2
      · exact ham2

/-- Witness for C10 with the real mainnet seed tokens: looking USDC up
by symbol (in any casing) yields nothing, while looking it up by
address succeeds. -/
theorem cachingTokenProvider_symbol_lookup_mismatch_witness :
    (hasUpper USDC_MAINNET.symbol = true ∧
      (cachingGetTokens 1 CACHE_SEED_TOKENS_MAINNET [] (fun _ => none) none
        ["0xA0b86991c6218b36c1d19D4a2e9Eb0cE3606eB48"]).getTokenBySymbol
          "USDC" ≠ some USDC_MAINNET) ∧
    ("0xa0b86991c6218b36c1d19d4a2e9eb0ce3606eb48" ∈
      uniqE (["0xA0b86991c6218b36c1d19D4a2e9Eb0cE3606eB48"].map lcStr) ∧
      objGet (seedCache 1 CACHE_SEED_TOKENS_MAINNET [])
          (CACHE_KEY 1 "0xa0b86991c6218b36c1d19d4a2e9eb0ce3606eb48") =
        some USDC_MAINNET ∧
      (cachingGetTokens 1 CACHE_SEED_TOKENS_MAINNET [] (fun _ => none) none
        ["0xA0b86991c6218b36c1d19D4a2e9Eb0cE3606eB48"]).getTokenByAddress
          "0xa0b86991c6218b36c1d19d4a2e9eb0ce3606eb48" =
        some USDC_MAINNET) :=
  ⟨⟨by decide,
    (cachingTokenProvider_symbol_lookup_mismatch 1 CACHE_SEED_TOKENS_MAINNET
      [] (fun _ => none) none
      ["0xA0b86991c6218b36c1d19D4a2e9Eb0cE3606eB48"]).1 USDC_MAINNET "USDC"
      (by decide)⟩,
   by decide, by decide,
   (cachingTokenProvider_symbol_lookup_mismatch 1 CACHE_SEED_TOKENS_MAINNET
      [] (fun _ => none) none
      ["0xA0b86991c6218b36c1d19D4a2e9Eb0cE3606eB48"]).2.2
      "0xa0b86991c6218b36c1d19d4a2e9eb0ce3606eb48" (by decide) USDC_MAINNET
      (by decide)⟩

end SOR
